import Mathlib

/-!
Verification of the MonacoEngine3 scene-graph core (Entity / Component /
Transform / HierarchyComponent / SceneGraph) against its specification.

The C++ sources embedded here:
  - Include/ECS/Entity.h              (component list, first-match lookup)
  - Include/ECS/Transform.h           (local S*R*T matrix recompute)
  - Include/SceneGraph/HierarchyComponent.h
  - Source/SceneGraph/SceneGraph.cpp  (registry, attach/detach/remove, update)

Entities are identified by numeric ids (`EntityId`); a null `Entity*` is
`Option.none` at the API boundary.  4x4 matrices (`XMMATRIX`) are modelled by
an arbitrary monoid `M`: matrix multiplication is `*`, `XMMatrixIdentity()` is
`1`, and the DirectXMath matrix constructors used by `Transform::update`
(XMMatrixScaling / RotationX / RotationY / RotationZ / Translation) together
with the value produced by the default `XMMATRIX` constructor are supplied as
an explicit record of operations `MatOps M`.  Scalar floats are modelled as
rationals.  Loops and recursions that the C++ does not bound are given an
explicit fuel argument; a result of `none` marks non-termination of the
corresponding C++ call.
-/

namespace Engine

abbrev EntityId := Nat

/-- Modelled from the spec: `EU::Vector3` (EngineUtilities, not under src/)
is a plain 3-vector of floats with a zero-initialising default constructor
and a `one()` mutator that sets all three components to 1. -/
abbrev Vec3 := ℚ × ℚ × ℚ

def vecZero : Vec3 := (0, 0, 0)

def vecOne : Vec3 := (1, 1, 1)

/-- The out-of-scope DirectXMath matrix constructors consumed by the core,
plus the (indeterminate) value of a value-initialised `XMMATRIX`. -/
structure MatOps (M : Type) where
  scaling : Vec3 → M
  rotationX : ℚ → M
  rotationY : ℚ → M
  rotationZ : ℚ → M
  translation : Vec3 → M
  defaultMat : M

/-- `Transform` (Include/ECS/Transform.h): local position / rotation / scale
and the derived local matrix field `matrix`. -/
structure Transform (M : Type) where
  position : Vec3
  rotation : Vec3
  scale : Vec3
  matrix : M
  deriving DecidableEq

/-- `Transform::Transform()`: position, rotation, scale are value-initialised
vectors; `matrix()` value-initialises the `XMMATRIX`. -/
def Transform.construct {M : Type} (ops : MatOps M) : Transform M :=
  ⟨vecZero, vecZero, vecZero, ops.defaultMat⟩

/-- `Transform::init()`: `scale.one(); matrix = XMMatrixIdentity();`. -/
def Transform.init {M : Type} [Monoid M] (t : Transform M) : Transform M :=
  { t with scale := vecOne, matrix := 1 }

/-- `Transform::update(float)` (Transform.h lines 47-64): recomputes the local
matrix as `scaleMatrix * (rotX * rotY * rotZ) * translationMatrix`. -/
def Transform.update {M : Type} [Monoid M] (ops : MatOps M) (deltaTime : ℚ)
    (t : Transform M) : Transform M :=
  let scaleMatrix := ops.scaling t.scale
  let rotX := ops.rotationX t.rotation.1
  let rotY := ops.rotationY t.rotation.2.1
  let rotZ := ops.rotationZ t.rotation.2.2
  let rotationMatrix := rotX * rotY * rotZ
  let translationMatrix := ops.translation t.position
  { t with matrix := scaleMatrix * rotationMatrix * translationMatrix }

/-- `Transform::setPosition`: mutates state, does not touch `matrix`. -/
def Transform.setPosition {M : Type} (newPos : Vec3) (t : Transform M) :
    Transform M :=
  { t with position := newPos }

/-- `Transform::setRotation`. -/
def Transform.setRotation {M : Type} (newRot : Vec3) (t : Transform M) :
    Transform M :=
  { t with rotation := newRot }

/-- `Transform::setScale`. -/
def Transform.setScale {M : Type} (newScale : Vec3) (t : Transform M) :
    Transform M :=
  { t with scale := newScale }

/-- `Transform::setTransform`. -/
def Transform.setTransform {M : Type} (newPos newRot newSca : Vec3)
    (t : Transform M) : Transform M :=
  { t with position := newPos, rotation := newRot, scale := newSca }

/-- `HierarchyComponent` (Include/SceneGraph/HierarchyComponent.h): a nullable
parent back-reference and an ordered list of child references.  The child list
cannot hold null in this model because `addChild` rejects null pointers. -/
structure HierarchyComponent where
  m_parent : Option EntityId
  m_children : List EntityId
  deriving DecidableEq

/-- `HierarchyComponent::HierarchyComponent()`. -/
def HierarchyComponent.construct : HierarchyComponent := ⟨none, []⟩

/-- `HierarchyComponent::init()` is empty. -/
def HierarchyComponent.init (h : HierarchyComponent) : HierarchyComponent := h

/-- `HierarchyComponent::update(float)` is empty. -/
def HierarchyComponent.update (h : HierarchyComponent) : HierarchyComponent := h

/-- `HierarchyComponent::setParent`. -/
def HierarchyComponent.setParent (parent : Option EntityId)
    (h : HierarchyComponent) : HierarchyComponent :=
  { h with m_parent := parent }

/-- `HierarchyComponent::isRoot`. -/
def HierarchyComponent.isRoot (h : HierarchyComponent) : Bool :=
  h.m_parent.isNone

/-- `HierarchyComponent::addChild`: null and duplicate children are rejected,
otherwise the child is appended. -/
def HierarchyComponent.addChild (child : EntityId) (h : HierarchyComponent) :
    HierarchyComponent :=
  if child ∈ h.m_children then h
  else { h with m_children := h.m_children ++ [child] }

/-- `HierarchyComponent::removeChild`: erase-remove of every occurrence,
preserving the relative order of the remaining children. -/
def HierarchyComponent.removeChild (child : EntityId)
    (h : HierarchyComponent) : HierarchyComponent :=
  { h with m_children := h.m_children.filter (fun x => x != child) }

/-- A component attached to an entity (`ComponentType` variants that the core
manipulates; other variants such as meshes never interact with the claims). -/
inductive Comp (M : Type) where
  | transform (t : Transform M)
  | hierarchy (h : HierarchyComponent)
  deriving DecidableEq

/-- `Entity` (Include/ECS/Entity.h): an ordered collection of components. -/
structure EntityState (M : Type) where
  m_components : List (Comp M)
  deriving DecidableEq

/-- `Entity::getComponent<Transform>()`: linear scan, first match wins. -/
def getTransformC {M : Type} : List (Comp M) → Option (Transform M)
  | [] => none
  | Comp.transform t :: _ => some t
  | Comp.hierarchy _ :: cs => getTransformC cs

/-- `Entity::getComponent<HierarchyComponent>()`. -/
def getHierC {M : Type} : List (Comp M) → Option HierarchyComponent
  | [] => none
  | Comp.hierarchy h :: _ => some h
  | Comp.transform _ :: cs => getHierC cs

/-- Mutation through the shared pointer returned by
`getComponent<HierarchyComponent>()`: rewrites the first hierarchy component
of the list (the one the lookup returns), leaving everything else alone. -/
def updFirstHierC {M : Type} (f : HierarchyComponent → HierarchyComponent) :
    List (Comp M) → List (Comp M)
  | [] => []
  | Comp.hierarchy h :: cs => Comp.hierarchy (f h) :: cs
  | Comp.transform t :: cs => Comp.transform t :: updFirstHierC f cs

/-- `Actor::update` (Source/ECS/Actor.cpp): calls `update(deltaTime)` on every
attached component; `Transform::update` recomputes the local matrix and
`HierarchyComponent::update` is a no-op. -/
def updAllC {M : Type} [Monoid M] (ops : MatOps M) (deltaTime : ℚ) :
    List (Comp M) → List (Comp M) :=
  List.map (fun c =>
    match c with
    | Comp.transform t => Comp.transform (Transform.update ops deltaTime t)
    | Comp.hierarchy h => Comp.hierarchy (HierarchyComponent.update h))

theorem getTransformC_updFirstHierC {M : Type}
    (f : HierarchyComponent → HierarchyComponent) (l : List (Comp M)) :
    getTransformC (updFirstHierC f l) = getTransformC l := by
  induction l with
  | nil => rfl
  | cons c cs ih =>
    cases c with
    | transform t => simp [updFirstHierC, getTransformC, ih]
    | hierarchy h => simp [updFirstHierC, getTransformC]

theorem getHierC_updFirstHierC {M : Type}
    (f : HierarchyComponent → HierarchyComponent) (l : List (Comp M)) :
    getHierC (updFirstHierC f l) = (getHierC l).map f := by
  induction l with
  | nil => rfl
  | cons c cs ih =>
    cases c with
    | transform t => simp [updFirstHierC, getHierC, ih]
    | hierarchy h => simp [updFirstHierC, getHierC]

theorem getHierC_append {M : Type} (l1 l2 : List (Comp M)) :
    getHierC (l1 ++ l2) =
      match getHierC l1 with
      | some h => some h
      | none => getHierC l2 := by
  induction l1 with
  | nil => simp [getHierC]
  | cons c cs ih =>
    cases c with
    | transform t => simpa [getHierC] using ih
    | hierarchy h => simp [getHierC]

theorem getTransformC_append {M : Type} (l1 l2 : List (Comp M)) :
    getTransformC (l1 ++ l2) =
      match getTransformC l1 with
      | some t => some t
      | none => getTransformC l2 := by
  induction l1 with
  | nil => simp [getTransformC]
  | cons c cs ih =>
    cases c with
    | transform t => simp [getTransformC]
    | hierarchy h => simpa [getTransformC] using ih

theorem getHierC_updAllC {M : Type} [Monoid M] (ops : MatOps M) (dt : ℚ)
    (l : List (Comp M)) :
    getHierC (updAllC ops dt l) = getHierC l := by
  induction l with
  | nil => rfl
  | cons c cs ih =>
    cases c with
    | transform t => simpa [updAllC, getHierC] using ih
    | hierarchy h => simp [updAllC, getHierC, HierarchyComponent.update]

theorem getTransformC_updAllC {M : Type} [Monoid M] (ops : MatOps M) (dt : ℚ)
    (l : List (Comp M)) :
    getTransformC (updAllC ops dt l) =
      (getTransformC l).map (Transform.update ops dt) := by
  induction l with
  | nil => rfl
  | cons c cs ih =>
    cases c with
    | transform t => simp [updAllC, getTransformC]
    | hierarchy h => simpa [updAllC, getTransformC] using ih

/-! ## The scene state: the heap of created entities plus the registry -/

/-- The world outside the SceneGraph owns the entities; the heap associates
each created entity's id with its component list.  `m_entities` is the
SceneGraph's flat registry of non-owning references (SceneGraph.h). -/
structure SceneState (M : Type) where
  heap : List (EntityId × EntityState M)
  m_entities : List EntityId
  deriving DecidableEq

/-- Dereference an `Entity*`: first heap entry with the given id. -/
def lookupE {M : Type} (e : EntityId) :
    List (EntityId × EntityState M) → Option (EntityState M)
  | [] => none
  | (k, v) :: rest => if k = e then some v else lookupE e rest

def getEntity {M : Type} (st : SceneState M) (e : EntityId) :
    Option (EntityState M) :=
  lookupE e st.heap

/-- In-place mutation of the entity object behind id `e`. -/
def updateEntity {M : Type} (st : SceneState M) (e : EntityId)
    (f : EntityState M → EntityState M) : SceneState M :=
  { st with heap :=
      st.heap.map (fun p => (p.1, if p.1 = e then f p.2 else p.2)) }

/-- Mutation of entity `e`'s first hierarchy component through the pointer
returned by `getComponent<HierarchyComponent>()`. -/
def updHier {M : Type} (st : SceneState M) (e : EntityId)
    (f : HierarchyComponent → HierarchyComponent) : SceneState M :=
  updateEntity st e (fun es => ⟨updFirstHierC f es.m_components⟩)

def getTransform {M : Type} (st : SceneState M) (e : EntityId) :
    Option (Transform M) :=
  (getEntity st e).bind (fun es => getTransformC es.m_components)

def getHierarchy {M : Type} (st : SceneState M) (e : EntityId) :
    Option HierarchyComponent :=
  (getEntity st e).bind (fun es => getHierC es.m_components)

/-- The parent back-reference visible on entity `e` (none when `e` has no
hierarchy component or a null parent). -/
def parentOf {M : Type} (st : SceneState M) (e : EntityId) : Option EntityId :=
  (getHierarchy st e).bind (fun h => h.m_parent)

/-- The child list visible on entity `e` ([] when `e` has no hierarchy
component). -/
def childrenOf {M : Type} (st : SceneState M) (e : EntityId) : List EntityId :=
  ((getHierarchy st e).map (fun h => h.m_children)).getD []

/-! ## SceneGraph operations (Source/SceneGraph/SceneGraph.cpp) -/

/-- `SceneGraph::isRegistered` (lines 112-115). -/
def isRegistered {M : Type} (st : SceneState M) (e : EntityId) : Bool :=
  decide (e ∈ st.m_entities)

/-- `SceneGraph::isRoot` (lines 104-110). -/
def isRoot {M : Type} (st : SceneState M) (e : Option EntityId) : Bool :=
  match e with
  | none => false
  | some e =>
    match getHierarchy st e with
    | none => true
    | some h => h.m_parent.isNone

/-- `Entity::addComponent`: push_back on the component list of entity `e`. -/
def addComp {M : Type} (st : SceneState M) (e : EntityId) (c : Comp M) :
    SceneState M :=
  updateEntity st e (fun es => ⟨es.m_components ++ [c]⟩)

/-- First half of `SceneGraph::addEntity`: attach a default `Transform` when
missing (the freshly added component is the first of its type, so the
`init()` call lands on it). -/
def addEntityStepT {M : Type} [Monoid M] (ops : MatOps M) (st : SceneState M)
    (e : EntityId) : SceneState M :=
  if (getTransform st e).isSome then st
  else addComp st e (Comp.transform (Transform.init (Transform.construct ops)))

/-- Second half of `SceneGraph::addEntity`: attach a default
`HierarchyComponent` when missing. -/
def addEntityStepH {M : Type} (st : SceneState M) (e : EntityId) :
    SceneState M :=
  if (getHierarchy st e).isSome then st
  else addComp st e
    (Comp.hierarchy (HierarchyComponent.init HierarchyComponent.construct))

/-- `SceneGraph::addEntity` (lines 26-46): no-op on null or registered
entities; otherwise auto-attach the missing default components and append to
the registry. -/
def addEntity {M : Type} [Monoid M] (ops : MatOps M) (st : SceneState M)
    (e : Option EntityId) : SceneState M :=
  match e with
  | none => st
  | some e =>
    if isRegistered st e then st
    else
      let st2 := addEntityStepH (addEntityStepT ops st e) e
      { st2 with m_entities := st2.m_entities ++ [e] }

/-- `SceneGraph::detach` (lines 144-161): false on null or hierarchy-less
entities, trivial success when already root, otherwise remove the child from
the old parent's list and null the back-reference. -/
def detach {M : Type} (st : SceneState M) (child : Option EntityId) :
    Bool × SceneState M :=
  match child with
  | none => (false, st)
  | some c =>
    match getHierarchy st c with
    | none => (false, st)
    | some hc =>
      match hc.m_parent with
      | none => (true, st)
      | some parent =>
        let st1 :=
          match getHierarchy st parent with
          | none => st
          | some _ => updHier st parent (HierarchyComponent.removeChild c)
        let st2 := updHier st1 c (fun h => { h with m_parent := none })
        (true, st2)

/-- The loop of `SceneGraph::isAncestor` (lines 92-100).  The C++ body
declares a NEW local `h` (line 96) that shadows the loop variable, so the `h`
tested by the loop condition and compared against `possibleAncestor` never
advances: the recursive call below deliberately passes `h` unchanged, exactly
as the compiled code does, and the value the shadowed inner `h` receives is
computed and dropped.  `none` marks a call that never terminates. -/
def isAncestorLoop {M : Type} (st : SceneState M) (possibleAncestor : EntityId)
    (h : Option HierarchyComponent) (node : EntityId) :
    Nat → Option Bool
  | 0 => none
  | Nat.succ fuel =>
    match h with
    | none => some false
    | some hc =>
      match hc.m_parent with
      | none => some false
      | some p =>
        if p = possibleAncestor then some true
        else
          let _shadowed := getHierarchy st p
          isAncestorLoop st possibleAncestor h p fuel

/-- `SceneGraph::isAncestor` (lines 86-102). -/
def isAncestor {M : Type} (st : SceneState M)
    (possibleAncestor node : Option EntityId) (fuel : Nat) : Option Bool :=
  match possibleAncestor, node with
  | none, _ => some false
  | some _, none => some false
  | some pa, some nd => isAncestorLoop st pa (getHierarchy st nd) nd fuel

/-- `SceneGraph::attach` (lines 117-142): reject null or equal arguments,
auto-register both, reject (after registration) when the child is found on
the parent's ancestor walk, otherwise detach the child and link it under the
parent.  `none` marks a call that never terminates (inside `isAncestor`). -/
def attach {M : Type} [Monoid M] (ops : MatOps M) (st : SceneState M)
    (child parent : Option EntityId) (fuel : Nat) :
    Option (Bool × SceneState M) :=
  match child, parent with
  | none, _ => some (false, st)
  | some _, none => some (false, st)
  | some c, some p =>
    if c = p then some (false, st)
    else
      let st1 := addEntity ops (addEntity ops st (some c)) (some p)
      match isAncestor st1 (some c) (some p) fuel with
      | none => none
      | some true => some (false, st1)
      | some false =>
        let st2 := (detach st1 (some c)).2
        match getHierarchy st2 c, getHierarchy st2 p with
        | none, _ => some (false, st2)
        | some _, none => some (false, st2)
        | some _, some _ =>
          let st3 := updHier st2 c (fun h => { h with m_parent := some p })
          let st4 := updHier st3 p (HierarchyComponent.addChild c)
          some (true, st4)

/-- One iteration of the orphan loop in `SceneGraph::removeEntity`
(lines 62-77): null the child's back-reference when it points at `e`, then
remove the child from `e`'s list. -/
def orphanStep {M : Type} (e : EntityId) (s : SceneState M) (c : EntityId) :
    SceneState M :=
  let s1 :=
    match getHierarchy s c with
    | none => s
    | some hcC =>
      if hcC.m_parent = some e then
        updHier s c (fun hh => { hh with m_parent := none })
      else s
  updHier s1 e (HierarchyComponent.removeChild c)

/-- `SceneGraph::removeEntity` (lines 48-84): no-op on null or unregistered
entities; otherwise detach from the parent, orphan every child whose
back-reference points at `e` (removing it from `e`'s list as the loop goes),
clear `e`'s child list and erase `e` from the registry. -/
def removeEntity {M : Type} (st : SceneState M) (e : Option EntityId) :
    SceneState M :=
  match e with
  | none => st
  | some e =>
    if isRegistered st e = false then st
    else
      let st1 := (detach st (some e)).2
      let st2 :=
        match getHierarchy st1 e with
        | none => st1
        | some h =>
          let childrenCopy := h.m_children
          let stLoop := childrenCopy.foldl (orphanStep e) st1
          updHier stLoop e (fun hh => { hh with m_children := [] })
      { st2 with m_entities := st2.m_entities.filter (fun x => x != e) }

/-- Pass 1 of `SceneGraph::update` (lines 163-170): `e->update(deltaTime,
deviceContext)` for every registered entity, in registry order. -/
def scenePass1 {M : Type} [Monoid M] (ops : MatOps M) (deltaTime : ℚ)
    (st : SceneState M) : SceneState M :=
  st.m_entities.foldl
    (fun s e => updateEntity s e (fun es => ⟨updAllC ops deltaTime es.m_components⟩))
    st

/-- `SceneGraph::updateWorldRecursive` (lines 183-199): return on a missing
transform or hierarchy, otherwise compute `world = local * parentWorld` and
recurse into the children.  The traversal writes nothing back into the scene
state; its result here is the list of (node, world matrix) pairs in visit
order, which in the C++ exists only as the transient `worldMatrix` values on
the call stack. -/
def updateWorldRecursive {M : Type} [Monoid M] (st : SceneState M) :
    Nat → EntityId → M → List (EntityId × M)
  | 0, _, _ => []
  | Nat.succ fuel, node, parentWorld =>
    match getTransform st node, getHierarchy st node with
    | some t, some h =>
      let worldMatrix := t.matrix * parentWorld
      (node, worldMatrix) ::
        (h.m_children.map
          (fun c => updateWorldRecursive st fuel c worldMatrix)).flatten
    | _, _ => []

/-- Pass 2 of `SceneGraph::update` (lines 172-180): start a recursive
propagation from `XMMatrixIdentity()` at every registered root, in registry
order. -/
def scenePass2 {M : Type} [Monoid M] (st : SceneState M) (fuel : Nat) :
    List (EntityId × M) :=
  (st.m_entities.map (fun e =>
    if isRoot st (some e) then updateWorldRecursive st fuel e 1 else [])).flatten

/-- `SceneGraph::update` (lines 163-181): Pass 1 then Pass 2.  The first
component is the scene state after the frame (only Pass 1 mutates it); the
second is Pass 2's transient world-matrix trace. -/
def sceneUpdate {M : Type} [Monoid M] (ops : MatOps M) (deltaTime : ℚ)
    (st : SceneState M) (fuel : Nat) : SceneState M × List (EntityId × M) :=
  let st1 := scenePass1 ops deltaTime st
  (st1, scenePass2 st1 fuel)

/-- A world of `n` freshly created entities (ids `0..n-1`, no components) and
an empty registry. -/
def freshScene (M : Type) (n : Nat) : SceneState M :=
  ⟨(List.range n).map (fun i => (i, ⟨[]⟩)), []⟩

/-- Run a sequence of `attach(child, parent)` calls.  Every call receives at
least one unit of loop fuel (the result is independent of `F`); `none` means
some call never terminated, so no later state exists. -/
def execAttachSeq {M : Type} [Monoid M] (ops : MatOps M) (F : Nat) :
    List (EntityId × EntityId) → SceneState M → Option (SceneState M)
  | [], st => some st
  | (c, p) :: rest, st =>
    match attach ops st (some c) (some p) (F + 1) with
    | none => none
    | some (_, st1) => execAttachSeq ops F rest st1

/-! ## Lemmas: heap access through updates -/

theorem lookupE_map_upd {M : Type} (e x : EntityId)
    (f : EntityState M → EntityState M)
    (l : List (EntityId × EntityState M)) :
    lookupE x (l.map (fun p => (p.1, if p.1 = e then f p.2 else p.2))) =
      if x = e then (lookupE x l).map f else lookupE x l := by
  induction l with
  | nil => by_cases hx : x = e <;> simp [lookupE, hx]
  | cons hd tl ih =>
    obtain ⟨k, v⟩ := hd
    by_cases hkx : k = x
    · subst hkx
      by_cases hx : k = e
      · subst hx
        simp [lookupE]
      · have hxk : ¬ (k = e) := hx
        simp [lookupE, hxk]
    · by_cases hx : x = e
      · subst hx
        simp [lookupE, hkx, ih]
      · simp [lookupE, hkx, hx, ih]

theorem getEntity_updateEntity {M : Type} (st : SceneState M) (e x : EntityId)
    (f : EntityState M → EntityState M) :
    getEntity (updateEntity st e f) x =
      if x = e then (getEntity st x).map f else getEntity st x := by
  unfold getEntity updateEntity
  have := lookupE_map_upd e x f st.heap
  by_cases hx : x = e
  · subst hx
    simpa using this
  · simpa [hx] using this

theorem m_entities_updateEntity {M : Type} (st : SceneState M) (e : EntityId)
    (f : EntityState M → EntityState M) :
    (updateEntity st e f).m_entities = st.m_entities := rfl

theorem heapKeys_updateEntity {M : Type} (st : SceneState M) (e : EntityId)
    (f : EntityState M → EntityState M) :
    (updateEntity st e f).heap.map Prod.fst = st.heap.map Prod.fst := by
  unfold updateEntity
  simp only [List.map_map]
  apply List.map_congr_left
  intro p _
  by_cases h : p.1 = e <;> simp [h]

theorem getTransform_updHier {M : Type} (st : SceneState M) (e x : EntityId)
    (f : HierarchyComponent → HierarchyComponent) :
    getTransform (updHier st e f) x = getTransform st x := by
  unfold getTransform updHier
  rw [getEntity_updateEntity]
  by_cases hx : x = e
  · rw [if_pos hx]
    cases getEntity st x with
    | none => rfl
    | some es => simp [getTransformC_updFirstHierC]
  · rw [if_neg hx]

theorem getHierarchy_updHier {M : Type} (st : SceneState M) (e x : EntityId)
    (f : HierarchyComponent → HierarchyComponent) :
    getHierarchy (updHier st e f) x =
      if x = e then (getHierarchy st x).map f else getHierarchy st x := by
  unfold getHierarchy updHier
  rw [getEntity_updateEntity]
  by_cases hx : x = e
  · rw [if_pos hx, if_pos hx]
    cases getEntity st x with
    | none => rfl
    | some es => simp [getHierC_updFirstHierC]
  · rw [if_neg hx, if_neg hx]

theorem parentOf_updHier_keep {M : Type} (st : SceneState M) (e x : EntityId)
    (f : HierarchyComponent → HierarchyComponent)
    (hf : ∀ h, (f h).m_parent = h.m_parent) :
    parentOf (updHier st e f) x = parentOf st x := by
  unfold parentOf
  rw [getHierarchy_updHier]
  by_cases hx : x = e
  · rw [if_pos hx]
    cases getHierarchy st x with
    | none => rfl
    | some h => simp [hf]
  · rw [if_neg hx]

theorem parentOf_updHier_set {M : Type} (st : SceneState M) (e x : EntityId)
    (v : Option EntityId) :
    parentOf (updHier st e (fun h => { h with m_parent := v })) x =
      if x = e ∧ (getHierarchy st e).isSome then v else parentOf st x := by
  unfold parentOf
  rw [getHierarchy_updHier]
  by_cases hx : x = e
  · subst hx
    rw [if_pos rfl]
    cases getHierarchy st x with
    | none => simp
    | some h => simp
  · rw [if_neg hx, if_neg (fun hh => hx hh.1)]

theorem childrenOf_updHier_keep {M : Type} (st : SceneState M) (e x : EntityId)
    (f : HierarchyComponent → HierarchyComponent)
    (hf : ∀ h, (f h).m_children = h.m_children) :
    childrenOf (updHier st e f) x = childrenOf st x := by
  unfold childrenOf
  rw [getHierarchy_updHier]
  by_cases hx : x = e
  · rw [if_pos hx]
    cases getHierarchy st x with
    | none => rfl
    | some h => simp [hf]
  · rw [if_neg hx]

theorem childrenOf_updHier {M : Type} (st : SceneState M) (e x : EntityId)
    (f : HierarchyComponent → HierarchyComponent) (h : HierarchyComponent)
    (hh : getHierarchy st e = some h) :
    childrenOf (updHier st e f) x =
      if x = e then (f h).m_children else childrenOf st x := by
  unfold childrenOf
  rw [getHierarchy_updHier]
  by_cases hx : x = e
  · subst hx
    rw [if_pos rfl, if_pos rfl, hh]
    rfl
  · rw [if_neg hx, if_neg hx]

theorem getHierarchy_isSome_updHier {M : Type} (st : SceneState M)
    (e x : EntityId) (f : HierarchyComponent → HierarchyComponent) :
    (getHierarchy (updHier st e f) x).isSome = (getHierarchy st x).isSome := by
  rw [getHierarchy_updHier]
  by_cases hx : x = e
  · rw [if_pos hx]
    cases getHierarchy st x <;> rfl
  · rw [if_neg hx]

/-! ## Lemmas: addComp and addEntity -/

def heapHas {M : Type} (st : SceneState M) (e : EntityId) : Bool :=
  (getEntity st e).isSome

theorem getTransform_addComp_hier {M : Type} (st : SceneState M)
    (e x : EntityId) (h : HierarchyComponent) :
    getTransform (addComp st e (Comp.hierarchy h)) x = getTransform st x := by
  unfold getTransform addComp
  rw [getEntity_updateEntity]
  by_cases hx : x = e
  · rw [if_pos hx]
    cases getEntity st x with
    | none => rfl
    | some es =>
      show getTransformC (es.m_components ++ [Comp.hierarchy h]) =
        getTransformC es.m_components
      rw [getTransformC_append]
      cases getTransformC es.m_components with
      | none => rfl
      | some t => rfl
  · rw [if_neg hx]

theorem getHierarchy_addComp_transform {M : Type} (st : SceneState M)
    (e x : EntityId) (t : Transform M) :
    getHierarchy (addComp st e (Comp.transform t)) x = getHierarchy st x := by
  unfold getHierarchy addComp
  rw [getEntity_updateEntity]
  by_cases hx : x = e
  · rw [if_pos hx]
    cases getEntity st x with
    | none => rfl
    | some es =>
      show getHierC (es.m_components ++ [Comp.transform t]) =
        getHierC es.m_components
      rw [getHierC_append]
      cases getHierC es.m_components with
      | none => rfl
      | some h => rfl
  · rw [if_neg hx]

theorem getTransform_addComp_transform {M : Type} (st : SceneState M)
    (e x : EntityId) (t : Transform M) :
    getTransform (addComp st e (Comp.transform t)) x =
      if x = e ∧ heapHas st e ∧ (getTransform st e).isNone
      then some t else getTransform st x := by
  unfold getTransform addComp heapHas
  rw [getEntity_updateEntity]
  by_cases hx : x = e
  · subst hx
    rw [if_pos rfl]
    cases hes : getEntity st x with
    | none => simp [getEntity, hes]
    | some es =>
      show getTransformC (es.m_components ++ [Comp.transform t]) = _
      rw [getTransformC_append]
      cases hts : getTransformC es.m_components with
      | none => simp [getEntity, hes, getTransform, hts, getTransformC]
      | some t0 => simp [getEntity, hes, getTransform, hts]
  · rw [if_neg hx, if_neg (fun hh => hx hh.1)]

theorem getHierarchy_addComp_hier {M : Type} (st : SceneState M)
    (e x : EntityId) (h : HierarchyComponent) :
    getHierarchy (addComp st e (Comp.hierarchy h)) x =
      if x = e ∧ heapHas st e ∧ (getHierarchy st e).isNone
      then some h else getHierarchy st x := by
  unfold getHierarchy addComp heapHas
  rw [getEntity_updateEntity]
  by_cases hx : x = e
  · subst hx
    rw [if_pos rfl]
    cases hes : getEntity st x with
    | none => simp [getEntity, hes]
    | some es =>
      show getHierC (es.m_components ++ [Comp.hierarchy h]) = _
      rw [getHierC_append]
      cases hts : getHierC es.m_components with
      | none => simp [getEntity, hes, getHierarchy, hts, getHierC]
      | some h0 => simp [getEntity, hes, getHierarchy, hts]
  · rw [if_neg hx, if_neg (fun hh => hx hh.1)]

theorem getTransform_addEntityStepT {M : Type} [Monoid M] (ops : MatOps M)
    (st : SceneState M) (e x : EntityId) :
    getTransform (addEntityStepT ops st e) x =
      if x = e ∧ heapHas st e ∧ (getTransform st e).isNone
      then some (Transform.init (Transform.construct ops))
      else getTransform st x := by
  unfold addEntityStepT
  by_cases ht : (getTransform st e).isSome
  · rw [if_pos ht]
    have : (getTransform st e).isNone = false := by
      cases hc : getTransform st e
      · rw [hc] at ht
        simp at ht
      · rfl
    rw [if_neg]
    intro hh
    rw [this] at hh
    exact Bool.false_ne_true hh.2.2
  · rw [if_neg ht]
    exact getTransform_addComp_transform st e x _

theorem getHierarchy_addEntityStepT {M : Type} [Monoid M] (ops : MatOps M)
    (st : SceneState M) (e x : EntityId) :
    getHierarchy (addEntityStepT ops st e) x = getHierarchy st x := by
  unfold addEntityStepT
  by_cases ht : (getTransform st e).isSome
  · rw [if_pos ht]
  · rw [if_neg ht]
    exact getHierarchy_addComp_transform st e x _

theorem getHierarchy_addEntityStepH {M : Type} (st : SceneState M)
    (e x : EntityId) :
    getHierarchy (addEntityStepH st e) x =
      if x = e ∧ heapHas st e ∧ (getHierarchy st e).isNone
      then some ⟨none, []⟩
      else getHierarchy st x := by
  unfold addEntityStepH
  by_cases ht : (getHierarchy st e).isSome
  · rw [if_pos ht]
    have : (getHierarchy st e).isNone = false := by
      cases hc : getHierarchy st e
      · rw [hc] at ht
        simp at ht
      · rfl
    rw [if_neg]
    intro hh
    rw [this] at hh
    exact Bool.false_ne_true hh.2.2
  · rw [if_neg ht]
    exact getHierarchy_addComp_hier st e x _

theorem getTransform_addEntityStepH {M : Type} (st : SceneState M)
    (e x : EntityId) :
    getTransform (addEntityStepH st e) x = getTransform st x := by
  unfold addEntityStepH
  by_cases ht : (getHierarchy st e).isSome
  · rw [if_pos ht]
  · rw [if_neg ht]
    exact getTransform_addComp_hier st e x _

theorem getTransform_set_entities {M : Type} (st : SceneState M)
    (l : List EntityId) (x : EntityId) :
    getTransform { st with m_entities := l } x = getTransform st x := rfl

theorem getHierarchy_set_entities {M : Type} (st : SceneState M)
    (l : List EntityId) (x : EntityId) :
    getHierarchy { st with m_entities := l } x = getHierarchy st x := rfl

theorem addEntity_none {M : Type} [Monoid M] (ops : MatOps M)
    (st : SceneState M) : addEntity ops st none = st := rfl

theorem addEntity_registered {M : Type} [Monoid M] (ops : MatOps M)
    (st : SceneState M) (e : EntityId) (hr : isRegistered st e = true) :
    addEntity ops st (some e) = st := by
  show (if isRegistered st e = true then st
    else
      let st2 := addEntityStepH (addEntityStepT ops st e) e
      { st2 with m_entities := st2.m_entities ++ [e] }) = st
  rw [if_pos hr]

theorem addEntity_unregistered {M : Type} [Monoid M] (ops : MatOps M)
    (st : SceneState M) (e : EntityId) (hr : isRegistered st e = false) :
    addEntity ops st (some e) =
      { addEntityStepH (addEntityStepT ops st e) e with
        m_entities :=
          (addEntityStepH (addEntityStepT ops st e) e).m_entities ++ [e] } := by
  show (if isRegistered st e = true then st
    else
      let st2 := addEntityStepH (addEntityStepT ops st e) e
      { st2 with m_entities := st2.m_entities ++ [e] }) = _
  rw [hr]
  simp

theorem m_entities_addEntityStepT {M : Type} [Monoid M] (ops : MatOps M)
    (st : SceneState M) (e : EntityId) :
    (addEntityStepT ops st e).m_entities = st.m_entities := by
  unfold addEntityStepT
  split
  · rfl
  · rfl

theorem m_entities_addEntityStepH {M : Type} (st : SceneState M)
    (e : EntityId) :
    (addEntityStepH st e).m_entities = st.m_entities := by
  unfold addEntityStepH
  split
  · rfl
  · rfl

theorem m_entities_addEntity {M : Type} [Monoid M] (ops : MatOps M)
    (st : SceneState M) (e : EntityId) :
    (addEntity ops st (some e)).m_entities =
      if isRegistered st e then st.m_entities
      else st.m_entities ++ [e] := by
  by_cases hr : isRegistered st e
  · rw [addEntity_registered ops st e hr, if_pos hr]
  · have hr2 : isRegistered st e = false := by
      cases hc : isRegistered st e
      · rfl
      · exact absurd hc hr
    rw [addEntity_unregistered ops st e hr2, if_neg hr]
    show (addEntityStepH (addEntityStepT ops st e) e).m_entities ++ [e] = _
    rw [m_entities_addEntityStepH, m_entities_addEntityStepT]

theorem isRegistered_addEntity_self {M : Type} [Monoid M] (ops : MatOps M)
    (st : SceneState M) (e : EntityId) :
    isRegistered (addEntity ops st (some e)) e = true := by
  unfold isRegistered
  rw [m_entities_addEntity]
  by_cases hr : isRegistered st e
  · rw [if_pos hr]
    exact hr
  · rw [if_neg hr]
    simp

theorem addEntity_idem {M : Type} [Monoid M] (ops : MatOps M)
    (st : SceneState M) (e : EntityId) :
    addEntity ops (addEntity ops st (some e)) (some e) =
      addEntity ops st (some e) :=
  addEntity_registered ops _ e (isRegistered_addEntity_self ops st e)

theorem getHierarchy_addEntity {M : Type} [Monoid M] (ops : MatOps M)
    (st : SceneState M) (e x : EntityId) :
    getHierarchy (addEntity ops st (some e)) x =
      if isRegistered st e then getHierarchy st x
      else if x = e ∧ heapHas st e ∧ (getHierarchy st e).isNone
      then some ⟨none, []⟩
      else getHierarchy st x := by
  by_cases hr : isRegistered st e
  · rw [addEntity_registered ops st e hr, if_pos hr]
  · have hr2 : isRegistered st e = false := by
      cases hc : isRegistered st e
      · rfl
      · exact absurd hc hr
    rw [addEntity_unregistered ops st e hr2, if_neg hr,
      getHierarchy_set_entities, getHierarchy_addEntityStepH,
      getHierarchy_addEntityStepT]
    have hh : heapHas (addEntityStepT ops st e) e = heapHas st e := by
      unfold addEntityStepT
      split
      · rfl
      · unfold heapHas addComp
        rw [getEntity_updateEntity, if_pos rfl]
        cases getEntity st e <;> rfl
    rw [hh, getHierarchy_addEntityStepT]

theorem getTransform_addEntity {M : Type} [Monoid M] (ops : MatOps M)
    (st : SceneState M) (e x : EntityId) :
    getTransform (addEntity ops st (some e)) x =
      if isRegistered st e then getTransform st x
      else if x = e ∧ heapHas st e ∧ (getTransform st e).isNone
      then some (Transform.init (Transform.construct ops))
      else getTransform st x := by
  by_cases hr : isRegistered st e
  · rw [addEntity_registered ops st e hr, if_pos hr]
  · have hr2 : isRegistered st e = false := by
      cases hc : isRegistered st e
      · rfl
      · exact absurd hc hr
    rw [addEntity_unregistered ops st e hr2, if_neg hr,
      getTransform_set_entities, getTransform_addEntityStepH,
      getTransform_addEntityStepT]

theorem parentOf_addEntity {M : Type} [Monoid M] (ops : MatOps M)
    (st : SceneState M) (eo : Option EntityId) (x : EntityId) :
    parentOf (addEntity ops st eo) x = parentOf st x := by
  cases eo with
  | none => rfl
  | some e =>
    unfold parentOf
    rw [getHierarchy_addEntity]
    split
    · rfl
    · split
      · rename_i hc
        obtain ⟨hx, _, hnone⟩ := hc
        rw [hx, Option.isNone_iff_eq_none.mp hnone]
        rfl
      · rfl

theorem childrenOf_addEntity {M : Type} [Monoid M] (ops : MatOps M)
    (st : SceneState M) (eo : Option EntityId) (x : EntityId) :
    childrenOf (addEntity ops st eo) x = childrenOf st x := by
  cases eo with
  | none => rfl
  | some e =>
    unfold childrenOf
    rw [getHierarchy_addEntity]
    split
    · rfl
    · split
      · rename_i hc
        obtain ⟨hx, _, hnone⟩ := hc
        rw [hx, Option.isNone_iff_eq_none.mp hnone]
        rfl
      · rfl


/-! ## Lemmas: detach -/

theorem detach_none {M : Type} (st : SceneState M) :
    detach st none = (false, st) := rfl

theorem detach_no_hier {M : Type} (st : SceneState M) (c : EntityId)
    (hh : getHierarchy st c = none) : detach st (some c) = (false, st) := by
  simp only [detach, hh]

theorem detach_root {M : Type} (st : SceneState M) (c : EntityId)
    (hc : HierarchyComponent) (hh : getHierarchy st c = some hc)
    (hp : hc.m_parent = none) : detach st (some c) = (true, st) := by
  simp only [detach, hh, hp]

theorem detach_attached {M : Type} (st : SceneState M) (c par : EntityId)
    (hc : HierarchyComponent) (hh : getHierarchy st c = some hc)
    (hp : hc.m_parent = some par) :
    detach st (some c) =
      (true,
        updHier
          (match getHierarchy st par with
           | none => st
           | some _ => updHier st par (HierarchyComponent.removeChild c))
          c (fun h => { h with m_parent := none })) := by
  simp only [detach, hh, hp]

theorem m_entities_detach {M : Type} (st : SceneState M) (c : EntityId) :
    ((detach st (some c)).2).m_entities = st.m_entities := by
  cases hh : getHierarchy st c with
  | none => rw [detach_no_hier st c hh]
  | some hc =>
    cases hp : hc.m_parent with
    | none => rw [detach_root st c hc hh hp]
    | some par =>
      rw [detach_attached st c par hc hh hp]
      cases getHierarchy st par <;> rfl

theorem getTransform_detach {M : Type} (st : SceneState M) (c x : EntityId) :
    getTransform ((detach st (some c)).2) x = getTransform st x := by
  cases hh : getHierarchy st c with
  | none => rw [detach_no_hier st c hh]
  | some hc =>
    cases hp : hc.m_parent with
    | none => rw [detach_root st c hc hh hp]
    | some par =>
      rw [detach_attached st c par hc hh hp]
      cases getHierarchy st par <;>
        simp [getTransform_updHier]

theorem getHierarchy_isSome_detach {M : Type} (st : SceneState M)
    (c x : EntityId) :
    (getHierarchy ((detach st (some c)).2) x).isSome =
      (getHierarchy st x).isSome := by
  cases hh : getHierarchy st c with
  | none => rw [detach_no_hier st c hh]
  | some hc =>
    cases hp : hc.m_parent with
    | none => rw [detach_root st c hc hh hp]
    | some par =>
      rw [detach_attached st c par hc hh hp]
      cases getHierarchy st par <;>
        simp [getHierarchy_isSome_updHier]

theorem parentOf_detach {M : Type} (st : SceneState M) (c x : EntityId) :
    parentOf ((detach st (some c)).2) x =
      if x = c then none else parentOf st x := by
  cases hh : getHierarchy st c with
  | none =>
    rw [detach_no_hier st c hh]
    by_cases hx : x = c
    · rw [if_pos hx, hx]
      unfold parentOf
      rw [hh]
      rfl
    · rw [if_neg hx]
  | some hc =>
    cases hp : hc.m_parent with
    | none =>
      rw [detach_root st c hc hh hp]
      by_cases hx : x = c
      · rw [if_pos hx, hx]
        unfold parentOf
        rw [hh]
        exact hp.symm ▸ rfl
      · rw [if_neg hx]
    | some par =>
      rw [detach_attached st c par hc hh hp]
      have hkeep : ∀ st0 : SceneState M,
          parentOf (updHier st0 c (fun h => { h with m_parent := none })) x =
            if x = c ∧ (getHierarchy st0 c).isSome then none
            else parentOf st0 x := fun st0 =>
        parentOf_updHier_set st0 c x none
      cases hpar : getHierarchy st par with
      | none =>
        rw [hkeep st]
        by_cases hx : x = c
        · rw [if_pos (And.intro hx (by rw [hh]; rfl)), if_pos hx]
        · rw [if_neg (fun hk => hx hk.1), if_neg hx]
      | some hpp =>
        rw [hkeep _]
        have hsome : (getHierarchy
            (updHier st par (HierarchyComponent.removeChild c)) c).isSome =
            true := by
          rw [getHierarchy_isSome_updHier, hh]
          rfl
        by_cases hx : x = c
        · rw [if_pos (And.intro hx hsome), if_pos hx]
        · rw [if_neg (fun hk => hx hk.1), if_neg hx,
            parentOf_updHier_keep]
          intro h0
          rfl

theorem childrenOf_detach {M : Type} (st : SceneState M) (c x : EntityId) :
    childrenOf ((detach st (some c)).2) x =
      match parentOf st c with
      | none => childrenOf st x
      | some par =>
        if x = par then (childrenOf st x).filter (fun y => y != c)
        else childrenOf st x := by
  cases hh : getHierarchy st c with
  | none =>
    rw [detach_no_hier st c hh]
    have : parentOf st c = none := by
      unfold parentOf
      rw [hh]
      rfl
    rw [this]
  | some hc =>
    have hpc : parentOf st c = hc.m_parent := by
      unfold parentOf
      rw [hh]
      rfl
    cases hp : hc.m_parent with
    | none =>
      rw [detach_root st c hc hh hp, hpc, hp]
    | some par =>
      rw [detach_attached st c par hc hh hp, hpc, hp]
      have hkeepch : ∀ st0 : SceneState M,
          childrenOf (updHier st0 c (fun h => { h with m_parent := none })) x =
            childrenOf st0 x := fun st0 =>
        childrenOf_updHier_keep st0 c x _ (fun h0 => rfl)
      cases hpar : getHierarchy st par with
      | none =>
        rw [hkeepch st]
        have hcpar : childrenOf st par = [] := by
          unfold childrenOf
          rw [hpar]
          rfl
        show childrenOf st x =
          if x = par then (childrenOf st x).filter (fun y => y != c)
          else childrenOf st x
        by_cases hx : x = par
        · rw [if_pos hx, hx, hcpar]
          rfl
        · rw [if_neg hx]
      | some hpp =>
        rw [hkeepch _]
        rw [childrenOf_updHier st par x _ hpp hpar]
        have hcpar : childrenOf st par = hpp.m_children := by
          unfold childrenOf
          rw [hpar]
          rfl
        show (if x = par then (HierarchyComponent.removeChild c hpp).m_children
            else childrenOf st x) =
          if x = par then (childrenOf st x).filter (fun y => y != c)
          else childrenOf st x
        by_cases hx : x = par
        · rw [if_pos hx, if_pos hx, hx, hcpar]
          rfl
        · rw [if_neg hx, if_neg hx]

/-! ## Lemmas: the compiled isAncestor loop -/

/-- One-shot denotation of the compiled `isAncestor` loop: because the
shadowed `h` never advances, the call answers from `node`'s direct parent
alone and spins forever (`none`) in every other case. -/
def isAncestorStep {M : Type} (st : SceneState M) (pa node : EntityId) :
    Option Bool :=
  match getHierarchy st node with
  | none => some false
  | some hc =>
    match hc.m_parent with
    | none => some false
    | some p => if p = pa then some true else none

theorem isAncestorLoop_const {M : Type} (st : SceneState M) (pa : EntityId)
    (hc : HierarchyComponent) (p : EntityId) (hp : hc.m_parent = some p)
    (hne : ¬ p = pa) :
    ∀ (n : Nat) (node : EntityId),
      isAncestorLoop st pa (some hc) node n = none := by
  intro n
  induction n with
  | zero => intro node; rfl
  | succ n ih =>
    intro node
    show (match hc.m_parent with
      | none => some false
      | some p =>
        if p = pa then some true
        else isAncestorLoop st pa (some hc) p n) = none
    rw [hp]
    show (if p = pa then some true
      else isAncestorLoop st pa (some hc) p n) = none
    rw [if_neg hne]
    exact ih p

theorem isAncestorStep_root {M : Type} (st : SceneState M) (pa node : EntityId)
    (hq : parentOf st node = none) :
    isAncestorStep st pa node = some false := by
  unfold isAncestorStep
  unfold parentOf at hq
  cases hh : getHierarchy st node with
  | none => rfl
  | some hc =>
    rw [hh] at hq
    have hq2 : hc.m_parent = none := hq
    show (match hc.m_parent with
      | none => some false
      | some p => if p = pa then some true else none) = some false
    rw [hq2]

theorem isAncestorStep_parent {M : Type} (st : SceneState M)
    (pa node q : EntityId) (hq : parentOf st node = some q) :
    isAncestorStep st pa node = if q = pa then some true else none := by
  unfold isAncestorStep
  unfold parentOf at hq
  cases hh : getHierarchy st node with
  | none =>
    rw [hh] at hq
    exact absurd hq (by simp)
  | some hc =>
    rw [hh] at hq
    have hq2 : hc.m_parent = some q := hq
    show (match hc.m_parent with
      | none => some false
      | some p => if p = pa then some true else none) = _
    rw [hq2]

theorem isAncestor_zero {M : Type} (st : SceneState M) (a b : EntityId) :
    isAncestor st (some a) (some b) 0 = none := by
  show isAncestorLoop st a (getHierarchy st b) b 0 = none
  rfl

theorem isAncestor_succ {M : Type} (st : SceneState M) (a b : EntityId)
    (n : Nat) :
    isAncestor st (some a) (some b) (n + 1) = isAncestorStep st a b := by
  show isAncestorLoop st a (getHierarchy st b) b (n + 1) = isAncestorStep st a b
  unfold isAncestorStep
  cases hh : getHierarchy st b with
  | none => rfl
  | some hc =>
    show (match hc.m_parent with
      | none => some false
      | some p =>
        if p = a then some true
        else isAncestorLoop st a (some hc) p n) =
      (match hc.m_parent with
        | none => some false
        | some p => if p = a then some true else none)
    cases hp : hc.m_parent with
    | none => rfl
    | some p =>
      show (if p = a then some true
        else isAncestorLoop st a (some hc) p n) =
        (if p = a then some true else none)
      by_cases hpa : p = a
      · rw [if_pos hpa, if_pos hpa]
      · rw [if_neg hpa, if_neg hpa]
        exact isAncestorLoop_const st a hc p hp hpa n p

theorem isAncestor_diverges {M : Type} (st : SceneState M) (a b q : EntityId)
    (hq : parentOf st b = some q) (hne : ¬ q = a) :
    ∀ n, isAncestor st (some a) (some b) n = none := by
  intro n
  cases n with
  | zero => exact isAncestor_zero st a b
  | succ n =>
    rw [isAncestor_succ, isAncestorStep_parent st a b q hq, if_neg hne]

theorem isAncestor_eq_true {M : Type} (st : SceneState M) (a b : EntityId)
    (n : Nat) (h : isAncestor st (some a) (some b) n = some true) :
    parentOf st b = some a := by
  cases n with
  | zero => rw [isAncestor_zero] at h; exact absurd h (by simp)
  | succ n =>
    rw [isAncestor_succ] at h
    cases hq : parentOf st b with
    | none =>
      rw [isAncestorStep_root st a b hq] at h
      exact absurd h (by simp)
    | some q =>
      rw [isAncestorStep_parent st a b q hq] at h
      by_cases hqa : q = a
      · rw [hqa]
      · rw [if_neg hqa] at h
        exact absurd h (by simp)

theorem isAncestor_root_false {M : Type} (st : SceneState M) (a b : EntityId)
    (n : Nat) (hb : parentOf st b = none) :
    isAncestor st (some a) (some b) (n + 1) = some false := by
  rw [isAncestor_succ, isAncestorStep_root st a b hb]

/-! ## Lemmas: attach -/

/-- The two auto-registrations performed by `attach` before its cycle check. -/
def regBoth {M : Type} [Monoid M] (ops : MatOps M) (st : SceneState M)
    (c p : EntityId) : SceneState M :=
  addEntity ops (addEntity ops st (some c)) (some p)

theorem attach_eq {M : Type} [Monoid M] (ops : MatOps M) (st : SceneState M)
    (c p : EntityId) (fuel : Nat) :
    attach ops st (some c) (some p) fuel =
      (if c = p then some (false, st)
      else
        match isAncestor (regBoth ops st c p) (some c) (some p) fuel with
        | none => none
        | some true => some (false, regBoth ops st c p)
        | some false =>
          let st2 := (detach (regBoth ops st c p) (some c)).2
          match getHierarchy st2 c, getHierarchy st2 p with
          | none, _ => some (false, st2)
          | some _, none => some (false, st2)
          | some _, some _ =>
            let st3 := updHier st2 c (fun h => { h with m_parent := some p })
            let st4 := updHier st3 p (HierarchyComponent.addChild c)
            some (true, st4)) := rfl

theorem parentOf_regBoth {M : Type} [Monoid M] (ops : MatOps M)
    (st : SceneState M) (c p x : EntityId) :
    parentOf (regBoth ops st c p) x = parentOf st x := by
  unfold regBoth
  rw [parentOf_addEntity, parentOf_addEntity]

theorem childrenOf_regBoth {M : Type} [Monoid M] (ops : MatOps M)
    (st : SceneState M) (c p x : EntityId) :
    childrenOf (regBoth ops st c p) x = childrenOf st x := by
  unfold regBoth
  rw [childrenOf_addEntity, childrenOf_addEntity]

theorem attach_diverges {M : Type} [Monoid M] (ops : MatOps M)
    (st : SceneState M) (c p q : EntityId) (hcp : ¬ c = p)
    (hq : parentOf st p = some q) (hne : ¬ q = c) :
    ∀ n, attach ops st (some c) (some p) n = none := by
  intro n
  rw [attach_eq, if_neg hcp]
  have hq1 : parentOf (regBoth ops st c p) p = some q := by
    rw [parentOf_regBoth]
    exact hq
  rw [isAncestor_diverges (regBoth ops st c p) c p q hq1 hne n]

theorem attach_guard_true {M : Type} [Monoid M] (ops : MatOps M)
    (st : SceneState M) (c p : EntityId) (hcp : ¬ c = p)
    (hq : parentOf st p = some c) :
    ∀ n, attach ops st (some c) (some p) (n + 1) =
      some (false, regBoth ops st c p) := by
  intro n
  rw [attach_eq, if_neg hcp]
  have hq1 : parentOf (regBoth ops st c p) p = some c := by
    rw [parentOf_regBoth]
    exact hq
  rw [isAncestor_succ, isAncestorStep_parent _ c p c hq1, if_pos rfl]

theorem attach_true_state {M : Type} [Monoid M] (ops : MatOps M)
    (st : SceneState M) (c p : EntityId) (fuel : Nat) (st4 : SceneState M)
    (h : attach ops st (some c) (some p) fuel = some (true, st4)) :
    ¬ c = p ∧ parentOf st p = none ∧
      (getHierarchy ((detach (regBoth ops st c p) (some c)).2) c).isSome ∧
      (getHierarchy ((detach (regBoth ops st c p) (some c)).2) p).isSome ∧
      st4 = updHier
        (updHier ((detach (regBoth ops st c p) (some c)).2) c
          (fun hh => { hh with m_parent := some p }))
        p (HierarchyComponent.addChild c) := by
  rw [attach_eq] at h
  by_cases hcp : c = p
  · rw [if_pos hcp] at h
    simp at h
  · rw [if_neg hcp] at h
    refine ⟨hcp, ?_⟩
    cases hg : isAncestor (regBoth ops st c p) (some c) (some p) fuel with
    | none => rw [hg] at h; exact absurd h (by simp)
    | some b =>
      cases b with
      | true =>
        rw [hg] at h
        simp at h
      | false =>
        rw [hg] at h
        have hroot : parentOf st p = none := by
          rw [← parentOf_regBoth ops st c p p]
          cases hq : parentOf (regBoth ops st c p) p with
          | none => rfl
          | some q =>
            cases fuel with
            | zero => rw [isAncestor_zero] at hg; exact absurd hg (by simp)
            | succ n =>
              rw [isAncestor_succ,
                isAncestorStep_parent _ c p q hq] at hg
              by_cases hqc : q = c
              · rw [if_pos hqc] at hg; exact absurd hg (by simp)
              · rw [if_neg hqc] at hg; exact absurd hg (by simp)
        refine ⟨hroot, ?_⟩
        have h2 : (match
            getHierarchy ((detach (regBoth ops st c p) (some c)).2) c,
            getHierarchy ((detach (regBoth ops st c p) (some c)).2) p with
          | none, _ => some (false, (detach (regBoth ops st c p) (some c)).2)
          | some _, none =>
            some (false, (detach (regBoth ops st c p) (some c)).2)
          | some _, some _ =>
            some (true,
              updHier
                (updHier ((detach (regBoth ops st c p) (some c)).2) c
                  (fun hh => { hh with m_parent := some p }))
                p (HierarchyComponent.addChild c))) = some (true, st4) := h
        cases h2c : getHierarchy ((detach (regBoth ops st c p) (some c)).2) c
          with
        | none =>
          rw [h2c] at h2
          simp at h2
        | some hc2 =>
          rw [h2c] at h2
          cases h2p :
            getHierarchy ((detach (regBoth ops st c p) (some c)).2) p with
          | none =>
            rw [h2p] at h2
            simp at h2
          | some hp2 =>
            rw [h2p] at h2
            refine ⟨rfl, rfl, ?_⟩
            have h3 := (Option.some.injEq .. ▸ h2 :
              ((true : Bool),
                updHier
                  (updHier ((detach (regBoth ops st c p) (some c)).2) c
                    (fun hh => { hh with m_parent := some p }))
                  p (HierarchyComponent.addChild c)) = (true, st4))
            exact ((Prod.mk.injEq .. ▸ h3).2).symm

theorem parentOf_attach_true {M : Type} [Monoid M] (ops : MatOps M)
    (st : SceneState M) (c p : EntityId) (fuel : Nat) (st4 : SceneState M)
    (h : attach ops st (some c) (some p) fuel = some (true, st4))
    (x : EntityId) :
    parentOf st4 x = if x = c then some p else parentOf st x := by
  obtain ⟨hcp, hroot, hsc, hsp, hst⟩ := attach_true_state ops st c p fuel st4 h
  rw [hst]
  rw [parentOf_updHier_keep _ p x _ (fun h0 => by
    unfold HierarchyComponent.addChild
    split
    · rfl
    · rfl)]
  rw [parentOf_updHier_set]
  by_cases hx : x = c
  · rw [if_pos (And.intro hx hsc), if_pos hx]
  · rw [if_neg (fun k => hx k.1), if_neg hx, parentOf_detach, if_neg hx,
      parentOf_regBoth]

theorem childrenOf_detach_regBoth {M : Type} [Monoid M] (ops : MatOps M)
    (st : SceneState M) (c p x : EntityId) :
    childrenOf ((detach (regBoth ops st c p) (some c)).2) x =
      match parentOf st c with
      | none => childrenOf st x
      | some oldp =>
        if x = oldp then (childrenOf st x).filter (fun y => y != c)
        else childrenOf st x := by
  rw [childrenOf_detach, parentOf_regBoth]
  cases parentOf st c with
  | none => exact childrenOf_regBoth ops st c p x
  | some oldp =>
    show (if x = oldp
        then (childrenOf (regBoth ops st c p) x).filter (fun y => y != c)
        else childrenOf (regBoth ops st c p) x) = _
    rw [childrenOf_regBoth]

theorem childrenOf_attach_true {M : Type} [Monoid M] (ops : MatOps M)
    (st : SceneState M) (c p : EntityId) (fuel : Nat) (st4 : SceneState M)
    (h : attach ops st (some c) (some p) fuel = some (true, st4))
    (x : EntityId) :
    childrenOf st4 x =
      if x = p then
        (if c ∈ childrenOf ((detach (regBoth ops st c p) (some c)).2) p
         then childrenOf ((detach (regBoth ops st c p) (some c)).2) p
         else childrenOf ((detach (regBoth ops st c p) (some c)).2) p ++ [c])
      else childrenOf ((detach (regBoth ops st c p) (some c)).2) x := by
  obtain ⟨hcp, hroot, hsc, hsp, hst⟩ := attach_true_state ops st c p fuel st4 h
  rw [hst]
  have hsp3 : (getHierarchy
      (updHier ((detach (regBoth ops st c p) (some c)).2) c
        (fun hh => { hh with m_parent := some p })) p).isSome := by
    rw [getHierarchy_isSome_updHier]
    exact hsp
  obtain ⟨hp3, hhp3⟩ : ∃ hp3, getHierarchy
      (updHier ((detach (regBoth ops st c p) (some c)).2) c
        (fun hh => { hh with m_parent := some p })) p = some hp3 := by
    cases hg : getHierarchy
        (updHier ((detach (regBoth ops st c p) (some c)).2) c
          (fun hh => { hh with m_parent := some p })) p with
    | none => rw [hg] at hsp3; exact absurd hsp3 (by simp)
    | some v => exact ⟨v, rfl⟩
  rw [childrenOf_updHier _ p x _ hp3 hhp3]
  have hkeep : ∀ y, childrenOf
      (updHier ((detach (regBoth ops st c p) (some c)).2) c
        (fun hh => { hh with m_parent := some p })) y =
      childrenOf ((detach (regBoth ops st c p) (some c)).2) y :=
    fun y => childrenOf_updHier_keep _ c y _ (fun h0 => rfl)
  have hchp3 : hp3.m_children =
      childrenOf ((detach (regBoth ops st c p) (some c)).2) p := by
    rw [← hkeep p]
    unfold childrenOf
    rw [hhp3]
    rfl
  by_cases hx : x = p
  · rw [if_pos hx, if_pos hx]
    unfold HierarchyComponent.addChild
    rw [hchp3]
    split
    · exact hchp3
    · rfl
  · rw [if_neg hx, if_neg hx]
    exact hkeep x

theorem attach_false_state {M : Type} [Monoid M] (ops : MatOps M)
    (st : SceneState M) (c p : EntityId) (fuel : Nat) (st1 : SceneState M)
    (h : attach ops st (some c) (some p) fuel = some (false, st1)) :
    st1 = st ∨ st1 = regBoth ops st c p ∨
      st1 = (detach (regBoth ops st c p) (some c)).2 := by
  rw [attach_eq] at h
  by_cases hcp : c = p
  · rw [if_pos hcp] at h
    simp at h
    exact Or.inl h.symm
  · rw [if_neg hcp] at h
    cases hg : isAncestor (regBoth ops st c p) (some c) (some p) fuel with
    | none => rw [hg] at h; exact absurd h (by simp)
    | some b =>
      cases b with
      | true =>
        rw [hg] at h
        simp at h
        exact Or.inr (Or.inl h.symm)
      | false =>
        rw [hg] at h
        have h2 : (match
            getHierarchy ((detach (regBoth ops st c p) (some c)).2) c,
            getHierarchy ((detach (regBoth ops st c p) (some c)).2) p with
          | none, _ => some (false, (detach (regBoth ops st c p) (some c)).2)
          | some _, none =>
            some (false, (detach (regBoth ops st c p) (some c)).2)
          | some _, some _ =>
            some (true,
              updHier
                (updHier ((detach (regBoth ops st c p) (some c)).2) c
                  (fun hh => { hh with m_parent := some p }))
                p (HierarchyComponent.addChild c))) =
            some ((false : Bool), st1) := h
        cases h2c : getHierarchy ((detach (regBoth ops st c p) (some c)).2) c
          with
        | none =>
          rw [h2c] at h2
          simp at h2
          exact Or.inr (Or.inr h2.symm)
        | some hc2 =>
          rw [h2c] at h2
          cases h2p :
            getHierarchy ((detach (regBoth ops st c p) (some c)).2) p with
          | none =>
            rw [h2p] at h2
            simp at h2
            exact Or.inr (Or.inr h2.symm)
          | some hp2 =>
            rw [h2p] at h2
            simp at h2

/-! ## Acyclicity -/

/-- One parent step: `x`'s parent back-reference is `y`. -/
def parentRel {M : Type} (st : SceneState M) (x y : EntityId) : Prop :=
  parentOf st x = some y

/-- No entity reaches itself by walking parent back-references upward. -/
def Acyclic {M : Type} (st : SceneState M) : Prop :=
  ∀ e, ¬ Relation.TransGen (parentRel st) e e

theorem transGen_first_step {α : Type} {r : α → α → Prop} {a b : α}
    (h : Relation.TransGen r a b) : ∃ z, r a z := by
  induction h with
  | single hab => exact ⟨_, hab⟩
  | tail hxb hby ih => exact ih

theorem acyclic_of_parentOf_eq {M : Type} {st1 st0 : SceneState M}
    (hp : ∀ x, parentOf st1 x = parentOf st0 x) (ha : Acyclic st0) :
    Acyclic st1 := by
  intro e hT
  refine ha e (hT.mono ?_)
  intro a b hab
  unfold parentRel at hab ⊢
  rw [← hp a]
  exact hab

theorem acyclic_unlink {M : Type} {st1 st0 : SceneState M} (c : EntityId)
    (hp : ∀ x, parentOf st1 x = if x = c then none else parentOf st0 x)
    (ha : Acyclic st0) : Acyclic st1 := by
  intro e hT
  refine ha e (hT.mono ?_)
  intro a b hab
  unfold parentRel at hab ⊢
  rw [hp a] at hab
  by_cases hac : a = c
  · rw [if_pos hac] at hab
    exact absurd hab (by simp)
  · rw [if_neg hac] at hab
    exact hab

theorem acyclic_link {M : Type} {st1 st0 : SceneState M} (c p : EntityId)
    (hp : ∀ x, parentOf st1 x = if x = c then some p else parentOf st0 x)
    (hroot : parentOf st1 p = none) (ha : Acyclic st0) : Acyclic st1 := by
  have keyL : ∀ a b, Relation.TransGen (parentRel st1) a b → b ≠ p →
      Relation.TransGen (parentRel st0) a b := by
    intro a b hT
    induction hT with
    | single hab =>
      intro hbp
      refine Relation.TransGen.single ?_
      unfold parentRel at hab ⊢
      rw [hp a] at hab
      by_cases hac : a = c
      · rw [if_pos hac] at hab
        have : p = _ := (Option.some.injEq .. ▸ hab)
        exact absurd this.symm hbp
      · rw [if_neg hac] at hab
        exact hab
    | tail hxb hby ih =>
      intro hbp
      rename_i b1 b2
      have hb1p : b1 ≠ p := by
        intro hh
        subst hh
        unfold parentRel at hby
        rw [hroot] at hby
        exact absurd hby (by simp)
      have h0 := ih hb1p
      refine h0.tail ?_
      unfold parentRel at hby ⊢
      rw [hp b1] at hby
      by_cases hbc : b1 = c
      · rw [if_pos hbc] at hby
        have : p = b2 := (Option.some.injEq .. ▸ hby)
        exact absurd this.symm hbp
      · rw [if_neg hbc] at hby
        exact hby
  intro e hT
  by_cases hep : e = p
  · subst hep
    obtain ⟨z, h1⟩ := transGen_first_step hT
    unfold parentRel at h1
    rw [hroot] at h1
    exact absurd h1 (by simp)
  · exact ha e (keyL e e hT hep)

theorem acyclic_attach_some {M : Type} [Monoid M] (ops : MatOps M)
    (st : SceneState M) (co po : Option EntityId) (fuel : Nat) (b : Bool)
    (st1 : SceneState M) (h : attach ops st co po fuel = some (b, st1))
    (ha : Acyclic st) : Acyclic st1 := by
  cases co with
  | none =>
    have h2 : some ((false : Bool), st) = some (b, st1) := h
    simp at h2
    rw [← h2.2]
    exact ha
  | some c =>
    cases po with
    | none =>
      have h2 : some ((false : Bool), st) = some (b, st1) := h
      simp at h2
      rw [← h2.2]
      exact ha
    | some p =>
      cases b with
      | true =>
        obtain ⟨hcp, hroot, _, _, _⟩ :=
          attach_true_state ops st c p fuel st1 h
        refine acyclic_link c p (parentOf_attach_true ops st c p fuel st1 h)
          ?_ ha
        rw [parentOf_attach_true ops st c p fuel st1 h p,
          if_neg (fun k => hcp k.symm)]
        exact hroot
      | false =>
        rcases attach_false_state ops st c p fuel st1 h with h1 | h1 | h1
        · rw [h1]; exact ha
        · rw [h1]
          exact acyclic_of_parentOf_eq (parentOf_regBoth ops st c p) ha
        · rw [h1]
          refine acyclic_unlink c ?_ ha
          intro x
          rw [parentOf_detach]
          by_cases hx : x = c
          · rw [if_pos hx, if_pos hx]
          · rw [if_neg hx, if_neg hx, parentOf_regBoth]

theorem exec_acyclic {M : Type} [Monoid M] (ops : MatOps M) (F : Nat) :
    ∀ (cmds : List (EntityId × EntityId)) (st st1 : SceneState M),
      Acyclic st → execAttachSeq ops F cmds st = some st1 → Acyclic st1 := by
  intro cmds
  induction cmds with
  | nil =>
    intro st st1 ha h
    have h2 : some st = some st1 := h
    simp at h2
    rw [← h2]
    exact ha
  | cons cmd rest ih =>
    intro st st1 ha h
    obtain ⟨c, p⟩ := cmd
    have h2 : (match attach ops st (some c) (some p) (F + 1) with
      | none => none
      | some (_, stt) => execAttachSeq ops F rest stt) = some st1 := h
    cases hat : attach ops st (some c) (some p) (F + 1) with
    | none => rw [hat] at h2; exact absurd h2 (by simp)
    | some r =>
      obtain ⟨b, stt⟩ := r
      rw [hat] at h2
      exact ih stt st1
        (acyclic_attach_some ops st (some c) (some p) (F + 1) b stt hat ha) h2

theorem getHierarchy_freshScene {M : Type} (k x : EntityId) :
    getHierarchy (freshScene M k) x = none := by
  unfold freshScene getHierarchy getEntity
  have key : ∀ (l : List Nat),
      ((lookupE x (l.map (fun i => (i, (⟨[]⟩ : EntityState M))))).bind
        (fun es => getHierC es.m_components)) = none := by
    intro l
    induction l with
    | nil => rfl
    | cons a tl ih =>
      show ((if a = x then some (⟨[]⟩ : EntityState M)
        else lookupE x (tl.map (fun i => (i, ⟨[]⟩)))).bind
          (fun es => getHierC es.m_components)) = none
      by_cases hax : a = x
      · rw [if_pos hax]
        rfl
      · rw [if_neg hax]
        exact ih
  exact key (List.range k)

theorem parentOf_freshScene {M : Type} (k x : EntityId) :
    parentOf (freshScene M k) x = none := by
  unfold parentOf
  rw [getHierarchy_freshScene]
  rfl

theorem acyclic_freshScene {M : Type} (k : Nat) :
    Acyclic (freshScene M k) := by
  intro e hT
  obtain ⟨z, h1⟩ := transGen_first_step hT
  unfold parentRel at h1
  rw [parentOf_freshScene] at h1
  exact absurd h1 (by simp)

/-! ## Mutual consistency of parent links and child lists -/

def heapIds {M : Type} (st : SceneState M) : List EntityId :=
  st.heap.map Prod.fst

theorem lookupE_eq_none_of_not_mem {M : Type} (x : EntityId)
    (l : List (EntityId × EntityState M)) (hx : x ∉ l.map Prod.fst) :
    lookupE x l = none := by
  induction l with
  | nil => rfl
  | cons hd tl ih =>
    obtain ⟨k, v⟩ := hd
    rw [List.map_cons, List.mem_cons] at hx
    have h1 : ¬ x = k := fun hh => hx (Or.inl hh)
    have h2 : x ∉ tl.map Prod.fst := fun hm => hx (Or.inr hm)
    show (if k = x then some v else lookupE x tl) = none
    rw [if_neg (fun hk => h1 hk.symm)]
    exact ih h2

theorem getEntity_eq_none_of_not_mem {M : Type} (st : SceneState M)
    (x : EntityId) (hx : x ∉ heapIds st) : getEntity st x = none :=
  lookupE_eq_none_of_not_mem x st.heap hx

theorem parentOf_eq_none_of_not_mem {M : Type} (st : SceneState M)
    (x : EntityId) (hx : x ∉ heapIds st) : parentOf st x = none := by
  unfold parentOf getHierarchy
  rw [getEntity_eq_none_of_not_mem st x hx]
  rfl

theorem childrenOf_eq_nil_of_not_mem {M : Type} (st : SceneState M)
    (x : EntityId) (hx : x ∉ heapIds st) : childrenOf st x = [] := by
  unfold childrenOf getHierarchy
  rw [getEntity_eq_none_of_not_mem st x hx]
  rfl

/-- The hierarchy invariant maintained by the SceneGraph: child lists hold no
duplicates, and membership of `y` in `x`'s child list is mutually consistent
with `y`'s parent back-reference being `x`.  (Quantifiers range over the
entity heap, which loses nothing: entities outside it have no links.) -/
def WellFormed {M : Type} (st : SceneState M) : Prop :=
  (∀ x ∈ heapIds st, (childrenOf st x).Nodup ∧
    ∀ y ∈ childrenOf st x, parentOf st y = some x) ∧
  (∀ y ∈ heapIds st, ∀ x ∈ (parentOf st y).toList, y ∈ childrenOf st x)

instance wellFormed_decidable {M : Type} (st : SceneState M) :
    Decidable (WellFormed st) :=
  inferInstanceAs (Decidable
    ((∀ x ∈ heapIds st, (childrenOf st x).Nodup ∧
        ∀ y ∈ childrenOf st x, parentOf st y = some x) ∧
      (∀ y ∈ heapIds st, ∀ x ∈ (parentOf st y).toList, y ∈ childrenOf st x)))

theorem wf_intro {M : Type} {st : SceneState M}
    (h1 : ∀ x, (childrenOf st x).Nodup)
    (h2 : ∀ x y, y ∈ childrenOf st x → parentOf st y = some x)
    (h3 : ∀ y x, parentOf st y = some x → y ∈ childrenOf st x) :
    WellFormed st := by
  refine ⟨fun x _ => ⟨h1 x, fun y hy => h2 x y hy⟩, fun y _ x hx => ?_⟩
  cases hp : parentOf st y with
  | none => rw [hp] at hx; exact absurd hx (by simp)
  | some x2 =>
    rw [hp] at hx
    rw [Option.toList_some, List.mem_singleton] at hx
    rw [← hx] at hp
    exact h3 y x hp

theorem wf_nodup {M : Type} {st : SceneState M} (hwf : WellFormed st)
    (x : EntityId) : (childrenOf st x).Nodup := by
  by_cases hx : x ∈ heapIds st
  · exact (hwf.1 x hx).1
  · rw [childrenOf_eq_nil_of_not_mem st x hx]
    exact List.nodup_nil

theorem wf_children_parent {M : Type} {st : SceneState M}
    (hwf : WellFormed st) (x y : EntityId) (hy : y ∈ childrenOf st x) :
    parentOf st y = some x := by
  by_cases hx : x ∈ heapIds st
  · exact (hwf.1 x hx).2 y hy
  · rw [childrenOf_eq_nil_of_not_mem st x hx] at hy
    exact absurd hy (by simp)

theorem wf_parent_children {M : Type} {st : SceneState M}
    (hwf : WellFormed st) (y x : EntityId) (hp : parentOf st y = some x) :
    y ∈ childrenOf st x := by
  by_cases hy : y ∈ heapIds st
  · refine hwf.2 y hy x ?_
    rw [hp]
    exact List.mem_singleton.mpr rfl
  · rw [parentOf_eq_none_of_not_mem st y hy] at hp
    exact absurd hp (by simp)

theorem wf_of_pointwise {M : Type} {st1 st0 : SceneState M}
    (hp : ∀ x, parentOf st1 x = parentOf st0 x)
    (hc : ∀ x, childrenOf st1 x = childrenOf st0 x)
    (hwf : WellFormed st0) : WellFormed st1 := by
  refine wf_intro (fun x => ?_) (fun x y hy => ?_) (fun y x hyp => ?_)
  · rw [hc x]
    exact wf_nodup hwf x
  · rw [hc x] at hy
    rw [hp y]
    exact wf_children_parent hwf x y hy
  · rw [hp y] at hyp
    rw [hc x]
    exact wf_parent_children hwf y x hyp

theorem wf_regBoth {M : Type} [Monoid M] (ops : MatOps M) (st : SceneState M)
    (c p : EntityId) (hwf : WellFormed st) :
    WellFormed (regBoth ops st c p) :=
  wf_of_pointwise (parentOf_regBoth ops st c p) (childrenOf_regBoth ops st c p)
    hwf

theorem wf_addEntity {M : Type} [Monoid M] (ops : MatOps M) (st : SceneState M)
    (eo : Option EntityId) (hwf : WellFormed st) :
    WellFormed (addEntity ops st eo) :=
  wf_of_pointwise (parentOf_addEntity ops st eo) (childrenOf_addEntity ops st eo)
    hwf

theorem wf_detach {M : Type} (st : SceneState M) (c : EntityId)
    (hwf : WellFormed st) : WellFormed ((detach st (some c)).2) := by
  refine wf_intro (fun x => ?_) (fun x y hy => ?_) (fun y x hyp => ?_)
  · rw [childrenOf_detach]
    cases parentOf st c with
    | none => exact wf_nodup hwf x
    | some oldp =>
      show List.Nodup (if x = oldp
        then (childrenOf st x).filter (fun y => y != c)
        else childrenOf st x)
      by_cases hx : x = oldp
      · rw [if_pos hx]
        exact (wf_nodup hwf x).filter _
      · rw [if_neg hx]
        exact wf_nodup hwf x
  · rw [childrenOf_detach] at hy
    rw [parentOf_detach]
    cases hpc : parentOf st c with
    | none =>
      rw [hpc] at hy
      have hpy := wf_children_parent hwf x y hy
      have hyc : ¬ y = c := by
        intro hh
        rw [hh, hpc] at hpy
        exact absurd hpy (by simp)
      rw [if_neg hyc]
      exact hpy
    | some oldp =>
      rw [hpc] at hy
      have hy9 : y ∈ (if x = oldp
        then (childrenOf st x).filter (fun z => z != c)
        else childrenOf st x) := hy
      have hy2 : y ∈ childrenOf st x ∧ ¬ y = c := by
        by_cases hx : x = oldp
        · rw [if_pos hx] at hy9
          rw [List.mem_filter] at hy9
          exact ⟨hy9.1, by simpa using hy9.2⟩
        · rw [if_neg hx] at hy9
          refine ⟨hy9, ?_⟩
          intro hh
          have hpy := wf_children_parent hwf x y hy9
          rw [hh, hpc] at hpy
          have : oldp = x := (Option.some.injEq .. ▸ hpy)
          exact hx this.symm
      rw [if_neg hy2.2]
      exact wf_children_parent hwf x y hy2.1
  · rw [parentOf_detach] at hyp
    by_cases hyc : y = c
    · rw [if_pos hyc] at hyp
      exact absurd hyp (by simp)
    · rw [if_neg hyc] at hyp
      have hy0 := wf_parent_children hwf y x hyp
      rw [childrenOf_detach]
      cases hpc : parentOf st c with
      | none => exact hy0
      | some oldp =>
        show y ∈ (if x = oldp
          then (childrenOf st x).filter (fun z => z != c)
          else childrenOf st x)
        by_cases hx : x = oldp
        · rw [if_pos hx]
          rw [List.mem_filter]
          exact ⟨hy0, by simpa using hyc⟩
        · rw [if_neg hx]
          exact hy0

theorem nodup_concat {α : Type} [DecidableEq α] (l : List α) (a : α)
    (hl : l.Nodup) (ha : a ∉ l) : (l ++ [a]).Nodup := by
  rw [List.nodup_append]
  exact ⟨hl, List.nodup_singleton a, by
    intro x hx hx2
    rw [List.mem_singleton] at hx2
    rw [hx2] at hx
    exact ha hx⟩

theorem attach_single_parent {M : Type} [Monoid M] (ops : MatOps M)
    (st : SceneState M) (c p : EntityId) (fuel : Nat) (st4 : SceneState M)
    (hwf : WellFormed st)
    (h : attach ops st (some c) (some p) fuel = some (true, st4)) :
    parentOf st4 c = some p ∧
      (childrenOf st4 p).count c = 1 ∧
      (∀ q, ¬ q = p → c ∉ childrenOf st4 q) ∧
      WellFormed st4 := by
  have hwf2 : WellFormed ((detach (regBoth ops st c p) (some c)).2) :=
    wf_detach _ c (wf_regBoth ops st c p hwf)
  have hP := parentOf_attach_true ops st c p fuel st4 h
  have hC := childrenOf_attach_true ops st c p fuel st4 h
  have hp2c : parentOf ((detach (regBoth ops st c p) (some c)).2) c = none := by
    rw [parentOf_detach, if_pos rfl]
  have hPeq : ∀ y, ¬ y = c →
      parentOf st y = parentOf ((detach (regBoth ops st c p) (some c)).2) y := by
    intro y hy
    rw [parentOf_detach, if_neg hy, parentOf_regBoth]
  have hcnot : c ∉ childrenOf ((detach (regBoth ops st c p) (some c)).2) p := by
    intro hmem
    have := wf_children_parent hwf2 p c hmem
    rw [hp2c] at this
    exact absurd this (by simp)
  have hCp : childrenOf st4 p =
      childrenOf ((detach (regBoth ops st c p) (some c)).2) p ++ [c] := by
    rw [hC p, if_pos rfl, if_neg hcnot]
  have hCq : ∀ q, ¬ q = p → childrenOf st4 q =
      childrenOf ((detach (regBoth ops st c p) (some c)).2) q := by
    intro q hq
    rw [hC q, if_neg hq]
  refine ⟨by rw [hP c, if_pos rfl], ?_, ?_, ?_⟩
  · rw [hCp, List.count_append]
    have h0 : (childrenOf ((detach (regBoth ops st c p) (some c)).2) p).count c
        = 0 := by
      rw [List.count_eq_zero]
      exact hcnot
    rw [h0]
    simp
  · intro q hq hmem
    rw [hCq q hq] at hmem
    have := wf_children_parent hwf2 q c hmem
    rw [hp2c] at this
    exact absurd this (by simp)
  · refine wf_intro (fun x => ?_) (fun x y hy => ?_) (fun y x hyp => ?_)
    · by_cases hx : x = p
      · rw [hx, hCp]
        exact nodup_concat _ c (wf_nodup hwf2 p) hcnot
      · rw [hCq x hx]
        exact wf_nodup hwf2 x
    · by_cases hx : x = p
      · subst hx
        rw [hCp] at hy
        rw [List.mem_append] at hy
        rcases hy with hy | hy
        · have hyp2 := wf_children_parent hwf2 x y hy
          have hyc : ¬ y = c := by
            intro hh
            rw [hh, hp2c] at hyp2
            exact absurd hyp2 (by simp)
          rw [hP y, if_neg hyc, hPeq y hyc]
          exact hyp2
        · rw [List.mem_singleton] at hy
          rw [hy, hP c, if_pos rfl]
      · rw [hCq x hx] at hy
        have hyp2 := wf_children_parent hwf2 x y hy
        have hyc : ¬ y = c := by
          intro hh
          rw [hh, hp2c] at hyp2
          exact absurd hyp2 (by simp)
        rw [hP y, if_neg hyc, hPeq y hyc]
        exact hyp2
    · rw [hP y] at hyp
      by_cases hyc : y = c
      · rw [if_pos hyc] at hyp
        have hxp : p = x := (Option.some.injEq .. ▸ hyp)
        rw [← hxp, hCp, hyc]
        rw [List.mem_append, List.mem_singleton]
        exact Or.inr rfl
      · rw [if_neg hyc] at hyp
        rw [hPeq y hyc] at hyp
        have hy0 := wf_parent_children hwf2 y x hyp
        by_cases hx : x = p
        · rw [hx] at hy0 ⊢
          rw [hCp, List.mem_append]
          exact Or.inl hy0
        · rw [hCq x hx]
          exact hy0

/-! ## Lemmas: removeEntity -/

theorem parentOf_orphanStep {M : Type} (e : EntityId) (s : SceneState M)
    (c y : EntityId) :
    parentOf (orphanStep e s c) y =
      if y = c ∧ parentOf s c = some e then none else parentOf s y := by
  unfold orphanStep
  cases hh : getHierarchy s c with
  | none =>
    show parentOf (updHier s e (HierarchyComponent.removeChild c)) y = _
    rw [parentOf_updHier_keep _ e y (HierarchyComponent.removeChild c)
      (fun h0 => rfl)]
    have hpc : parentOf s c = none := by
      unfold parentOf
      rw [hh]
      rfl
    rw [if_neg (fun k => by rw [hpc] at k; exact absurd k.2 (by simp))]
  | some hcC =>
    have hpc : parentOf s c = hcC.m_parent := by
      unfold parentOf
      rw [hh]
      rfl
    by_cases hpe : hcC.m_parent = some e
    · show parentOf (updHier
        (if hcC.m_parent = some e
         then updHier s c (fun hh => { hh with m_parent := none }) else s)
        e (HierarchyComponent.removeChild c)) y = _
      rw [if_pos hpe, parentOf_updHier_keep _ e y
        (HierarchyComponent.removeChild c) (fun h0 => rfl),
        parentOf_updHier_set]
      by_cases hy : y = c
      · rw [if_pos ⟨hy, by rw [hh]; rfl⟩, if_pos ⟨hy, by rw [hpc]; exact hpe⟩]
      · rw [if_neg (fun k => hy k.1), if_neg (fun k => hy k.1)]
    · show parentOf (updHier
        (if hcC.m_parent = some e
         then updHier s c (fun hh => { hh with m_parent := none }) else s)
        e (HierarchyComponent.removeChild c)) y = _
      rw [if_neg hpe, parentOf_updHier_keep _ e y
        (HierarchyComponent.removeChild c) (fun h0 => rfl)]
      rw [if_neg (fun k => by rw [hpc] at k; exact hpe k.2)]

theorem m_entities_orphanStep {M : Type} (e : EntityId) (s : SceneState M)
    (c : EntityId) : (orphanStep e s c).m_entities = s.m_entities := by
  unfold orphanStep
  cases hh : getHierarchy s c with
  | none => rfl
  | some hcC =>
    show (updHier
      (if hcC.m_parent = some e
       then updHier s c (fun hh => { hh with m_parent := none }) else s)
      e (HierarchyComponent.removeChild c)).m_entities = _
    by_cases hpe : hcC.m_parent = some e
    · rw [if_pos hpe]
      rfl
    · rw [if_neg hpe]
      rfl

theorem getHierarchy_isSome_orphanStep {M : Type} (e : EntityId)
    (s : SceneState M) (c y : EntityId) :
    (getHierarchy (orphanStep e s c) y).isSome =
      (getHierarchy s y).isSome := by
  unfold orphanStep
  cases hh : getHierarchy s c with
  | none =>
    show (getHierarchy (updHier s e (HierarchyComponent.removeChild c))
      y).isSome = _
    rw [getHierarchy_isSome_updHier]
  | some hcC =>
    show (getHierarchy (updHier
      (if hcC.m_parent = some e
       then updHier s c (fun hh => { hh with m_parent := none }) else s)
      e (HierarchyComponent.removeChild c)) y).isSome = _
    rw [getHierarchy_isSome_updHier]
    by_cases hpe : hcC.m_parent = some e
    · rw [if_pos hpe, getHierarchy_isSome_updHier]
    · rw [if_neg hpe]

theorem parentOf_orphanFold {M : Type} (e : EntityId) :
    ∀ (l : List EntityId) (s : SceneState M) (y : EntityId),
      parentOf (l.foldl (orphanStep e) s) y =
        if y ∈ l ∧ parentOf s y = some e then none else parentOf s y := by
  intro l
  induction l with
  | nil =>
    intro s y
    rw [if_neg (fun k => by exact absurd k.1 (by simp))]
    rfl
  | cons c tl ih =>
    intro s y
    show parentOf (tl.foldl (orphanStep e) (orphanStep e s c)) y = _
    rw [ih]
    by_cases hyc : y = c
    · by_cases hpe : parentOf s c = some e
      · have hv : parentOf (orphanStep e s c) y = none := by
          rw [parentOf_orphanStep, if_pos ⟨hyc, hpe⟩]
        rw [hv]
        rw [if_neg (fun k => by exact absurd k.2 (by simp))]
        rw [if_pos ⟨by rw [hyc]; exact List.mem_cons_self c tl,
          by rw [hyc]; exact hpe⟩]
      · have hv : parentOf (orphanStep e s c) y = parentOf s y := by
          rw [parentOf_orphanStep, if_neg (fun k => hpe k.2)]
        rw [hv]
        by_cases hpy : parentOf s y = some e
        · rw [hyc] at hpy
          exact absurd hpy hpe
        · rw [if_neg (fun k => hpy k.2), if_neg (fun k => hpy k.2)]
    · have hv : parentOf (orphanStep e s c) y = parentOf s y := by
        rw [parentOf_orphanStep, if_neg (fun k => hyc k.1)]
      rw [hv]
      by_cases hmem : y ∈ tl
      · by_cases hpy : parentOf s y = some e
        · rw [if_pos ⟨hmem, hpy⟩, if_pos ⟨List.mem_cons_of_mem c hmem, hpy⟩]
        · rw [if_neg (fun k => hpy k.2), if_neg (fun k => hpy k.2)]
      · rw [if_neg (fun k => hmem k.1)]
        have hnc : ¬ (y ∈ c :: tl ∧ parentOf s y = some e) := by
          intro k
          rcases List.mem_cons.mp k.1 with h1 | h1
          · exact hyc h1
          · exact hmem h1
        rw [if_neg hnc]

theorem m_entities_orphanFold {M : Type} (e : EntityId) :
    ∀ (l : List EntityId) (s : SceneState M),
      (l.foldl (orphanStep e) s).m_entities = s.m_entities := by
  intro l
  induction l with
  | nil => intro s; rfl
  | cons c tl ih =>
    intro s
    show (tl.foldl (orphanStep e) (orphanStep e s c)).m_entities = _
    rw [ih, m_entities_orphanStep]

theorem getHierarchy_isSome_orphanFold {M : Type} (e : EntityId) :
    ∀ (l : List EntityId) (s : SceneState M) (y : EntityId),
      (getHierarchy (l.foldl (orphanStep e) s) y).isSome =
        (getHierarchy s y).isSome := by
  intro l
  induction l with
  | nil => intro s y; rfl
  | cons c tl ih =>
    intro s y
    show (getHierarchy (tl.foldl (orphanStep e) (orphanStep e s c)) y).isSome
      = _
    rw [ih, getHierarchy_isSome_orphanStep]

/-! ## Lemmas: the two-pass frame update -/

/-- The local matrix `Transform::update` derives from the current fields:
`Scale * (RotX * RotY * RotZ) * Translate`. -/
def localSRT {M : Type} [Monoid M] (ops : MatOps M) (t : Transform M) : M :=
  ops.scaling t.scale *
    (ops.rotationX t.rotation.1 * ops.rotationY t.rotation.2.1 *
      ops.rotationZ t.rotation.2.2) *
    ops.translation t.position

theorem Transform.update_matrix {M : Type} [Monoid M] (ops : MatOps M)
    (dt : ℚ) (t : Transform M) :
    (Transform.update ops dt t).matrix = localSRT ops t := rfl

theorem Transform.update_fields {M : Type} [Monoid M] (ops : MatOps M)
    (dt : ℚ) (t : Transform M) :
    (Transform.update ops dt t).position = t.position ∧
    (Transform.update ops dt t).rotation = t.rotation ∧
    (Transform.update ops dt t).scale = t.scale := ⟨rfl, rfl, rfl⟩

theorem Transform.update_update {M : Type} [Monoid M] (ops : MatOps M)
    (dt : ℚ) (t : Transform M) :
    Transform.update ops dt (Transform.update ops dt t) =
      Transform.update ops dt t := rfl

theorem getTransform_pass1step {M : Type} [Monoid M] (ops : MatOps M)
    (dt : ℚ) (st : SceneState M) (e x : EntityId) :
    getTransform
        (updateEntity st e (fun es => ⟨updAllC ops dt es.m_components⟩)) x =
      if x = e then (getTransform st x).map (Transform.update ops dt)
      else getTransform st x := by
  unfold getTransform
  rw [getEntity_updateEntity]
  by_cases hx : x = e
  · rw [if_pos hx, if_pos hx]
    cases getEntity st x with
    | none => rfl
    | some es =>
      show getTransformC (updAllC ops dt es.m_components) = _
      rw [getTransformC_updAllC]
      rfl
  · rw [if_neg hx, if_neg hx]

theorem getHierarchy_pass1step {M : Type} [Monoid M] (ops : MatOps M)
    (dt : ℚ) (st : SceneState M) (e x : EntityId) :
    getHierarchy
        (updateEntity st e (fun es => ⟨updAllC ops dt es.m_components⟩)) x =
      getHierarchy st x := by
  unfold getHierarchy
  rw [getEntity_updateEntity]
  by_cases hx : x = e
  · rw [if_pos hx]
    cases getEntity st x with
    | none => rfl
    | some es =>
      show getHierC (updAllC ops dt es.m_components) =
        getHierC es.m_components
      rw [getHierC_updAllC]
  · rw [if_neg hx]

theorem getTransform_pass1fold {M : Type} [Monoid M] (ops : MatOps M)
    (dt : ℚ) (x : EntityId) :
    ∀ (l : List EntityId) (st : SceneState M),
      getTransform
          (l.foldl (fun s e =>
            updateEntity s e (fun es => ⟨updAllC ops dt es.m_components⟩)) st)
          x =
        if x ∈ l then (getTransform st x).map (Transform.update ops dt)
        else getTransform st x := by
  intro l
  induction l with
  | nil =>
    intro st
    rw [if_neg (by simp)]
    rfl
  | cons e tl ih =>
    intro st
    show getTransform (tl.foldl _
      (updateEntity st e (fun es => ⟨updAllC ops dt es.m_components⟩))) x = _
    rw [ih, getTransform_pass1step]
    by_cases hx : x = e
    · rw [if_pos hx]
      by_cases hmem : x ∈ tl
      · rw [if_pos hmem, if_pos (List.mem_cons_of_mem e hmem)]
        cases getTransform st x with
        | none => rfl
        | some t =>
          show some (Transform.update ops dt (Transform.update ops dt t)) = _
          rw [Transform.update_update]
          rfl
      · rw [if_neg hmem, if_pos (by rw [hx]; exact List.mem_cons_self e tl)]
    · rw [if_neg hx]
      by_cases hmem : x ∈ tl
      · rw [if_pos hmem, if_pos (List.mem_cons_of_mem e hmem)]
      · rw [if_neg hmem]
        have : x ∉ e :: tl := by
          intro k
          rcases List.mem_cons.mp k with h1 | h1
          · exact hx h1
          · exact hmem h1
        rw [if_neg this]

theorem getHierarchy_pass1fold {M : Type} [Monoid M] (ops : MatOps M)
    (dt : ℚ) (x : EntityId) :
    ∀ (l : List EntityId) (st : SceneState M),
      getHierarchy
          (l.foldl (fun s e =>
            updateEntity s e (fun es => ⟨updAllC ops dt es.m_components⟩)) st)
          x = getHierarchy st x := by
  intro l
  induction l with
  | nil => intro st; rfl
  | cons e tl ih =>
    intro st
    show getHierarchy (tl.foldl _
      (updateEntity st e (fun es => ⟨updAllC ops dt es.m_components⟩))) x = _
    rw [ih, getHierarchy_pass1step]

theorem getTransform_scenePass1 {M : Type} [Monoid M] (ops : MatOps M)
    (dt : ℚ) (st : SceneState M) (x : EntityId) :
    getTransform (scenePass1 ops dt st) x =
      if x ∈ st.m_entities
      then (getTransform st x).map (Transform.update ops dt)
      else getTransform st x :=
  getTransform_pass1fold ops dt x st.m_entities st

theorem getHierarchy_scenePass1 {M : Type} [Monoid M] (ops : MatOps M)
    (dt : ℚ) (st : SceneState M) (x : EntityId) :
    getHierarchy (scenePass1 ops dt st) x = getHierarchy st x :=
  getHierarchy_pass1fold ops dt x st.m_entities st

theorem m_entities_pass1fold {M : Type} [Monoid M] (ops : MatOps M)
    (dt : ℚ) :
    ∀ (l : List EntityId) (st : SceneState M),
      (l.foldl (fun s e =>
        updateEntity s e (fun es => ⟨updAllC ops dt es.m_components⟩))
          st).m_entities = st.m_entities := by
  intro l
  induction l with
  | nil => intro st; rfl
  | cons e tl ih =>
    intro st
    show (tl.foldl _
      (updateEntity st e (fun es => ⟨updAllC ops dt es.m_components⟩))).m_entities = _
    rw [ih]
    rfl

theorem m_entities_scenePass1 {M : Type} [Monoid M] (ops : MatOps M)
    (dt : ℚ) (st : SceneState M) :
    (scenePass1 ops dt st).m_entities = st.m_entities :=
  m_entities_pass1fold ops dt st.m_entities st

/-- The concrete parent chain root→A→B of the propagation claim: entity 0 is
the root, 1 hangs under 0, 2 under 1; all three registered. -/
def c2State {M : Type} (tr ta tb : Transform M) : SceneState M :=
  ⟨[(0, ⟨[Comp.transform tr, Comp.hierarchy ⟨none, [1]⟩]⟩),
    (1, ⟨[Comp.transform ta, Comp.hierarchy ⟨some 0, [2]⟩]⟩),
    (2, ⟨[Comp.transform tb, Comp.hierarchy ⟨some 1, []⟩]⟩)],
   [0, 1, 2]⟩

/-! ## More helpers: registration, heap presence, well-formed executions -/

theorem heapHas_updateEntity {M : Type} (st : SceneState M) (e x : EntityId)
    (f : EntityState M → EntityState M) :
    heapHas (updateEntity st e f) x = heapHas st x := by
  unfold heapHas
  rw [getEntity_updateEntity]
  by_cases hx : x = e
  · rw [if_pos hx]
    cases getEntity st x <;> rfl
  · rw [if_neg hx]

theorem heapHas_addEntity {M : Type} [Monoid M] (ops : MatOps M)
    (st : SceneState M) (eo : Option EntityId) (x : EntityId) :
    heapHas (addEntity ops st eo) x = heapHas st x := by
  cases eo with
  | none => rfl
  | some e =>
    by_cases hr : isRegistered st e
    · rw [addEntity_registered ops st e hr]
    · have hr2 : isRegistered st e = false := by
        cases hc : isRegistered st e
        · rfl
        · exact absurd hc hr
      rw [addEntity_unregistered ops st e hr2]
      show heapHas (addEntityStepH (addEntityStepT ops st e) e) x = _
      unfold addEntityStepH addEntityStepT addComp
      split
      · split
        · rfl
        · rw [heapHas_updateEntity]
      · split
        · rw [heapHas_updateEntity]
        · rw [heapHas_updateEntity, heapHas_updateEntity]

theorem isRegistered_addEntity_mono {M : Type} [Monoid M] (ops : MatOps M)
    (st : SceneState M) (eo : Option EntityId) (x : EntityId)
    (hx : isRegistered st x = true) :
    isRegistered (addEntity ops st eo) x = true := by
  cases eo with
  | none => exact hx
  | some e =>
    unfold isRegistered at hx ⊢
    rw [m_entities_addEntity]
    by_cases hr : isRegistered st e
    · rw [if_pos hr]
      exact hx
    · rw [if_neg hr]
      simp only [decide_eq_true_eq] at hx ⊢
      exact List.mem_append_left _ hx

theorem getTransform_addEntity_other {M : Type} [Monoid M] (ops : MatOps M)
    (st : SceneState M) (e x : EntityId) (hx : ¬ x = e) :
    getTransform (addEntity ops st (some e)) x = getTransform st x := by
  rw [getTransform_addEntity]
  by_cases hr : isRegistered st e
  · rw [if_pos hr]
  · rw [if_neg hr, if_neg (fun k => hx k.1)]

theorem getHierarchy_addEntity_other {M : Type} [Monoid M] (ops : MatOps M)
    (st : SceneState M) (e x : EntityId) (hx : ¬ x = e) :
    getHierarchy (addEntity ops st (some e)) x = getHierarchy st x := by
  rw [getHierarchy_addEntity]
  by_cases hr : isRegistered st e
  · rw [if_pos hr]
  · rw [if_neg hr, if_neg (fun k => hx k.1)]

theorem getTransform_addEntity_self_isSome {M : Type} [Monoid M]
    (ops : MatOps M) (st : SceneState M) (e : EntityId)
    (hr : isRegistered st e = false) (hh : heapHas st e = true) :
    (getTransform (addEntity ops st (some e)) e).isSome = true := by
  rw [getTransform_addEntity]
  rw [if_neg (by rw [hr]; exact Bool.false_ne_true)]
  cases ht : getTransform st e with
  | none => rw [if_pos ⟨rfl, hh, rfl⟩]; rfl
  | some t =>
    rw [if_neg (fun k => by exact absurd k.2.2 (by simp))]
    rfl

theorem getHierarchy_addEntity_self_isSome {M : Type} [Monoid M]
    (ops : MatOps M) (st : SceneState M) (e : EntityId)
    (hr : isRegistered st e = false) (hh : heapHas st e = true) :
    (getHierarchy (addEntity ops st (some e)) e).isSome = true := by
  rw [getHierarchy_addEntity]
  rw [if_neg (by rw [hr]; exact Bool.false_ne_true)]
  cases ht : getHierarchy st e with
  | none => rw [if_pos ⟨rfl, hh, rfl⟩]; rfl
  | some h0 =>
    rw [if_neg (fun k => by exact absurd k.2.2 (by simp))]
    rfl

theorem wf_attach_some {M : Type} [Monoid M] (ops : MatOps M)
    (st : SceneState M) (co po : Option EntityId) (fuel : Nat) (b : Bool)
    (st1 : SceneState M) (h : attach ops st co po fuel = some (b, st1))
    (hwf : WellFormed st) : WellFormed st1 := by
  cases co with
  | none =>
    have h2 : some ((false : Bool), st) = some (b, st1) := h
    simp at h2
    rw [← h2.2]
    exact hwf
  | some c =>
    cases po with
    | none =>
      have h2 : some ((false : Bool), st) = some (b, st1) := h
      simp at h2
      rw [← h2.2]
      exact hwf
    | some p =>
      cases b with
      | true => exact (attach_single_parent ops st c p fuel st1 hwf h).2.2.2
      | false =>
        rcases attach_false_state ops st c p fuel st1 h with h1 | h1 | h1
        · rw [h1]; exact hwf
        · rw [h1]; exact wf_regBoth ops st c p hwf
        · rw [h1]; exact wf_detach _ c (wf_regBoth ops st c p hwf)

theorem wf_exec {M : Type} [Monoid M] (ops : MatOps M) (F : Nat) :
    ∀ (cmds : List (EntityId × EntityId)) (st st1 : SceneState M),
      WellFormed st → execAttachSeq ops F cmds st = some st1 →
      WellFormed st1 := by
  intro cmds
  induction cmds with
  | nil =>
    intro st st1 hwf h
    have h2 : some st = some st1 := h
    simp at h2
    rw [← h2]
    exact hwf
  | cons cmd rest ih =>
    intro st st1 hwf h
    obtain ⟨c, p⟩ := cmd
    have h2 : (match attach ops st (some c) (some p) (F + 1) with
      | none => none
      | some (_, stt) => execAttachSeq ops F rest stt) = some st1 := h
    cases hat : attach ops st (some c) (some p) (F + 1) with
    | none => rw [hat] at h2; exact absurd h2 (by simp)
    | some r =>
      obtain ⟨b, stt⟩ := r
      rw [hat] at h2
      exact ih stt st1
        (wf_attach_some ops st (some c) (some p) (F + 1) b stt hat hwf) h2

theorem wf_freshScene {M : Type} (k : Nat) : WellFormed (freshScene M k) := by
  refine wf_intro (fun x => ?_) (fun x y hy => ?_) (fun y x hyp => ?_)
  · have : childrenOf (freshScene M k) x = [] := by
      unfold childrenOf
      rw [getHierarchy_freshScene]
      rfl
    rw [this]
    exact List.nodup_nil
  · have : childrenOf (freshScene M k) x = [] := by
      unfold childrenOf
      rw [getHierarchy_freshScene]
      rfl
    rw [this] at hy
    exact absurd hy (by simp)
  · rw [parentOf_freshScene] at hyp
    exact absurd hyp (by simp)

theorem removeEntity_eq {M : Type} (st : SceneState M) (e : EntityId)
    (hr : isRegistered st e = true) :
    removeEntity st (some e) =
      (let st1 := (detach st (some e)).2
       let st2 :=
         match getHierarchy st1 e with
         | none => st1
         | some h =>
           updHier (h.m_children.foldl (orphanStep e) st1) e
             (fun hh => { hh with m_children := [] })
       { st2 with m_entities := st2.m_entities.filter (fun x => x != e) }) := by
  show (if isRegistered st e = false then st else _) = _
  rw [hr]
  rw [if_neg (by simp)]

theorem isRegistered_addEntity_other {M : Type} [Monoid M] (ops : MatOps M)
    (st : SceneState M) (e x : EntityId) (hx : ¬ x = e) :
    isRegistered (addEntity ops st (some e)) x = isRegistered st x := by
  unfold isRegistered
  rw [m_entities_addEntity]
  by_cases hr : isRegistered st e
  · rw [if_pos hr]
  · rw [if_neg hr]
    simp only [decide_eq_decide]
    rw [List.mem_append, List.mem_singleton]
    constructor
    · intro k
      rcases k with k | k
      · exact k
      · exact absurd k hx
    · exact Or.inl

/-! ## Concrete states for evaluation -/

/-- A concrete choice of matrix monoid (ℕ under multiplication) and matrix
constructors, used to evaluate the model on closed inputs. -/
def opsNat : MatOps ℕ :=
  { scaling := fun v => 2, rotationX := fun q => 3, rotationY := fun q => 5,
    rotationZ := fun q => 7, translation := fun v => 11, defaultMat := 13 }

/-- The component state `addEntity` gives a fresh entity: a default
`Transform` after `init()` (unit scale, identity matrix). -/
def tDefault : Transform ℕ := ⟨(0, 0, 0), (0, 0, 0), (1, 1, 1), 1⟩

/-- The state reached from three fresh entities by `attach(1, 0)`. -/
def stPair : SceneState ℕ :=
  ⟨[(0, ⟨[Comp.transform tDefault, Comp.hierarchy ⟨none, [1]⟩]⟩),
    (1, ⟨[Comp.transform tDefault, Comp.hierarchy ⟨some 0, []⟩]⟩),
    (2, ⟨[]⟩)],
   [1, 0]⟩

theorem stPair_exec :
    execAttachSeq opsNat 0 [(1, 0)] (freshScene ℕ 3) = some stPair := by
  decide

/-- The state reached from `stPair` by the successful `attach(2, 0)`. -/
def stTriple : SceneState ℕ :=
  ⟨[(0, ⟨[Comp.transform tDefault, Comp.hierarchy ⟨none, [1, 2]⟩]⟩),
    (1, ⟨[Comp.transform tDefault, Comp.hierarchy ⟨some 0, []⟩]⟩),
    (2, ⟨[Comp.transform tDefault, Comp.hierarchy ⟨some 0, []⟩]⟩)],
   [1, 0, 2]⟩

theorem stTriple_attach :
    attach opsNat stPair (some 2) (some 0) 1 = some (true, stTriple) := by
  decide

/-- The chain 0→1→2 reached from three fresh entities by `attach(2, 1)` then
`attach(1, 0)` (leaf first, so every attach happens under a root parent). -/
def stChain : SceneState ℕ :=
  ⟨[(0, ⟨[Comp.transform tDefault, Comp.hierarchy ⟨none, [1]⟩]⟩),
    (1, ⟨[Comp.transform tDefault, Comp.hierarchy ⟨some 0, [2]⟩]⟩),
    (2, ⟨[Comp.transform tDefault, Comp.hierarchy ⟨some 1, []⟩]⟩)],
   [2, 1, 0]⟩

theorem stChain_exec :
    execAttachSeq opsNat 0 [(2, 1), (1, 0)] (freshScene ℕ 3) =
      some stChain := by
  decide

/-- Two unregistered entities where 1's parent back-reference was set to 0 by
hand (`HierarchyComponent::setParent` is public): the terminating
cycle-rejection case of `attach(0, 1)`. -/
def stWild : SceneState ℕ :=
  ⟨[(0, ⟨[]⟩), (1, ⟨[Comp.hierarchy ⟨some 0, []⟩]⟩)], []⟩

/-! ## The claims -/

/-- C1: the claim says `SceneGraph::isAncestor(possibleAncestor, node)`
terminates by walking the parent chain upward from `node` and returns true
exactly when `possibleAncestor` is a proper ancestor.  The code violates
this: in the chain 0→1→2 below, 0 is a proper ancestor of 2 (witnessed by
the transitive parent walk), yet the compiled `isAncestor(0, 2)` never
terminates for any amount of loop fuel — the declaration at SceneGraph.cpp
line 96 shadows the loop variable `h`, so the loop condition and the
comparison always look at 2's own hierarchy component and never advance. -/
theorem isAncestor_c1_diverges_on_grandchild {M : Type}
    (tr ta tb : Transform M) :
    Relation.TransGen (parentRel (c2State tr ta tb)) 2 0 ∧
    parentOf (c2State tr ta tb) 2 = some 1 ∧
    parentOf (c2State tr ta tb) 1 = some 0 ∧
    ∀ n, isAncestor (c2State tr ta tb) (some 0) (some 2) n = none := by
  refine ⟨?_, rfl, rfl, ?_⟩
  · exact Relation.TransGen.tail
      (Relation.TransGen.single (show parentRel (c2State tr ta tb) 2 1 from
        rfl))
      (show parentRel (c2State tr ta tb) 1 0 from rfl)
  · intro n
    exact isAncestor_diverges (c2State tr ta tb) 0 2 1 rfl (by decide) n

/-- C2: after `SceneGraph::update` on the registered parent chain root→A→B
(entities 0→1→2), Pass 2 visits the chain strictly parent before child,
starting from the identity matrix at the root, and the accumulated world
matrices are exactly `Lr`, `La * Lr`, `Lb * La * Lr`, where each `L` is the
local matrix Pass 1 recomputed from that entity's fields. -/
theorem sceneUpdate_c2_chain_propagation {M : Type} [Monoid M]
    (ops : MatOps M) (dt : ℚ) (n : Nat) (tr ta tb : Transform M) :
    (sceneUpdate ops dt (c2State tr ta tb) (n + 3)).2 =
      [(0, localSRT ops tr),
       (1, localSRT ops ta * localSRT ops tr),
       (2, localSRT ops tb * localSRT ops ta * localSRT ops tr)] := by
  have hcomp : (sceneUpdate ops dt (c2State tr ta tb) (n + 3)).2 =
      [(0, localSRT ops tr * 1),
       (1, localSRT ops ta * (localSRT ops tr * 1)),
       (2, localSRT ops tb * (localSRT ops ta * (localSRT ops tr * 1)))] :=
    rfl
  rw [hcomp]
  simp [mul_one, mul_assoc]

/-- C3 (amended): every sequence of terminating `attach` calls starting from
freshly created entities leaves the hierarchy acyclic — following parent
back-references upward never returns to the starting entity — and
`isAncestor(e, e)` never returns true in such a state.  (The original
claim's parenthetical "isAncestor(e, e) is false" fails on the code: for an
attached entity the call does not terminate at all; see the
counterexample.) -/
theorem execAttach_c3_acyclic {M : Type} [Monoid M] (ops : MatOps M)
    (F k : Nat) (cmds : List (EntityId × EntityId)) (st1 : SceneState M)
    (hexec : execAttachSeq ops F cmds (freshScene M k) = some st1) :
    Acyclic st1 ∧
      ∀ e n, ¬ isAncestor st1 (some e) (some e) n = some true := by
  have ha := exec_acyclic ops F cmds (freshScene M k) st1
    (acyclic_freshScene k) hexec
  refine ⟨ha, fun e n htrue => ?_⟩
  exact ha e (Relation.TransGen.single (isAncestor_eq_true st1 e e n htrue))

/-- C3 witness: a concrete run (three fresh entities, `attach(1, 0)`)
reaching `stPair`, which the theorem shows acyclic. -/
theorem execAttach_c3_acyclic_witness :
    execAttachSeq opsNat 0 [(1, 0)] (freshScene ℕ 3) = some stPair ∧
      Acyclic stPair :=
  ⟨stPair_exec,
    (execAttach_c3_acyclic opsNat 0 3 [(1, 0)] stPair stPair_exec).1⟩

/-- C3 counterexample: in the reachable state `stPair` the attached entity 1
is no self-ancestor, yet `isAncestor(1, 1)` does not return false — it never
returns at all (1's parent is 0 ≠ 1, and the shadowed loop variable never
advances), refuting the claim's "isAncestor(e, e) is false" reading. -/
theorem execAttach_c3_cex :
    execAttachSeq opsNat 0 [(1, 0)] (freshScene ℕ 3) = some stPair ∧
      ¬ ∃ n, isAncestor stPair (some 1) (some 1) n = some false := by
  refine ⟨stPair_exec, ?_⟩
  rintro ⟨n, hn⟩
  rw [isAncestor_diverges stPair 1 1 0 rfl (by decide) n] at hn
  exact absurd hn (by simp)

/-- C4 (amended): the only terminating rejection of the cycle guard is the
direct case: whenever the would-be parent's own parent is exactly the child,
`attach(child, parent)` returns false and leaves every entity's parent
back-reference and child list unchanged (only the two auto-registrations
happen).  When the parent's direct parent is any other entity — in
particular when the child is a more distant ancestor — the call does not
terminate.  (The claim's general direction is also wrong: attaching an
entity under its own ancestor is not rejected; see the counterexample.) -/
theorem attach_c4_cycle_rejection {M : Type} [Monoid M] (ops : MatOps M) :
    (∀ (st : SceneState M) (c p : EntityId) (n : Nat),
      parentOf st p = some c → ¬ c = p →
      attach ops st (some c) (some p) (n + 1) =
          some (false, regBoth ops st c p) ∧
        (∀ x, parentOf (regBoth ops st c p) x = parentOf st x) ∧
        (∀ x, childrenOf (regBoth ops st c p) x = childrenOf st x)) ∧
    (∀ (st : SceneState M) (c p q : EntityId) (n : Nat),
      parentOf st p = some q → ¬ q = c → ¬ c = p →
      attach ops st (some c) (some p) n = none) := by
  constructor
  · intro st c p n hq hcp
    exact ⟨attach_guard_true ops st c p hcp hq n,
      parentOf_regBoth ops st c p, childrenOf_regBoth ops st c p⟩
  · intro st c p q n hq hne hcp
    exact attach_diverges ops st c p q hcp hq hne n

/-- C4 witness: in `stPair` (1 attached under 0), `attach(0, 1)` is the
direct cycle case and returns false with links unchanged, while
`attach(2, 1)` hits a parent whose own parent differs from the child and
never terminates. -/
theorem attach_c4_cycle_rejection_witness :
    (parentOf stPair 1 = some 0 ∧
      attach opsNat stPair (some 0) (some 1) 1 =
        some (false, regBoth opsNat stPair 0 1)) ∧
    attach opsNat stPair (some 2) (some 1) 5 = none :=
  ⟨⟨rfl, ((attach_c4_cycle_rejection opsNat).1 stPair 0 1 0 rfl
      (by decide)).1⟩,
    (attach_c4_cycle_rejection opsNat).2 stPair 2 1 0 5 rfl (by decide)
      (by decide)⟩

/-- C4 counterexample: in the reachable state `stPair`, 0 is an ancestor of
1, so the claim ("whenever A is an ancestor of B, attach(B, A) returns
false") demands `attach(1, 0)` = false; the code re-attaches 1 under its
ancestor 0 and returns true. -/
theorem attach_c4_cex :
    execAttachSeq opsNat 0 [(1, 0)] (freshScene ℕ 3) = some stPair ∧
      parentOf stPair 1 = some 0 ∧
      (attach opsNat stPair (some 1) (some 0) 1).map Prod.fst = some true :=
  ⟨stPair_exec, rfl, rfl⟩

/-- C5: single-parent invariant.  Every state reached from fresh entities by
attach calls is well-formed (child lists duplicate-free and mutually
consistent with parent back-references), and after any successful
`attach(child, parent)` on a well-formed state: child's back-reference is
`parent`, child occurs exactly once in parent's child list, child occurs in
no other entity's child list, and the state is well-formed again. -/
theorem attach_c5_single_parent {M : Type} [Monoid M] (ops : MatOps M) :
    (∀ (F k : Nat) (cmds : List (EntityId × EntityId)) (st1 : SceneState M),
      execAttachSeq ops F cmds (freshScene M k) = some st1 →
      WellFormed st1) ∧
    (∀ (st : SceneState M) (c p : EntityId) (fuel : Nat)
        (st4 : SceneState M),
      WellFormed st → attach ops st (some c) (some p) fuel = some (true, st4) →
      parentOf st4 c = some p ∧
        (childrenOf st4 p).count c = 1 ∧
        (∀ q, ¬ q = p → c ∉ childrenOf st4 q) ∧
        WellFormed st4) :=
  ⟨fun F k cmds st1 h => wf_exec ops F cmds (freshScene M k) st1
      (wf_freshScene k) h,
    fun st c p fuel st4 hwf h =>
      attach_single_parent ops st c p fuel st4 hwf h⟩

/-- C5 witness: the successful `attach(2, 0)` on the well-formed reachable
state `stPair`. -/
theorem attach_c5_single_parent_witness :
    WellFormed stPair ∧
      attach opsNat stPair (some 2) (some 0) 1 = some (true, stTriple) ∧
      parentOf stTriple 2 = some 0 ∧
      (childrenOf stTriple 0).count 2 = 1 := by
  have h := (attach_c5_single_parent opsNat).2 stPair 2 0 1 stTriple
    (by decide) stTriple_attach
  exact ⟨by decide, stTriple_attach, h.1, h.2.1⟩

theorem removeEntity_attached_eq {M : Type} (st : SceneState M) (e : EntityId)
    (h1 : HierarchyComponent) (hr : isRegistered st e = true)
    (hh : getHierarchy ((detach st (some e)).2) e = some h1) :
    removeEntity st (some e) =
      { updHier (h1.m_children.foldl (orphanStep e) ((detach st (some e)).2))
          e (fun hh2 => { hh2 with m_children := [] }) with
        m_entities :=
          (updHier
            (h1.m_children.foldl (orphanStep e) ((detach st (some e)).2)) e
            (fun hh2 => { hh2 with m_children := [] })).m_entities.filter
            (fun x => x != e) } := by
  rw [removeEntity_eq st e hr]
  simp only [hh]

/-- C6: shallow removal.  For a registered chain root→A→B in a well-formed
state, `removeEntity(A)` unregisters A, nulls B's parent back-reference
(B becomes a root), and leaves B — and the old root — registered: children
are orphaned to root level, never recursively removed from the registry. -/
theorem removeEntity_c6_shallow {M : Type} (st : SceneState M)
    (r a b : EntityId) (hwf : WellFormed st)
    (hregr : isRegistered st r = true) (hrega : isRegistered st a = true)
    (hregb : isRegistered st b = true) (hpa : parentOf st a = some r)
    (hpb : parentOf st b = some a) (hne_ra : ¬ a = r) (hne_ab : ¬ b = a)
    (hne_rb : ¬ r = a) :
    isRegistered (removeEntity st (some a)) a = false ∧
      parentOf (removeEntity st (some a)) b = none ∧
      isRegistered (removeEntity st (some a)) b = true ∧
      isRoot (removeEntity st (some a)) (some b) = true ∧
      isRegistered (removeEntity st (some a)) r = true := by
  have hsa : (getHierarchy ((detach st (some a)).2) a).isSome = true := by
    rw [getHierarchy_isSome_detach]
    unfold parentOf at hpa
    cases hg : getHierarchy st a with
    | none => rw [hg] at hpa; exact absurd hpa (by simp)
    | some hcomp => rfl
  obtain ⟨ha1, hha1⟩ :
      ∃ hh, getHierarchy ((detach st (some a)).2) a = some hh := by
    cases hg : getHierarchy ((detach st (some a)).2) a with
    | none => rw [hg] at hsa; exact absurd hsa (by simp)
    | some v => exact ⟨v, rfl⟩
  have hre := removeEntity_attached_eq st a ha1 hrega hha1
  have hch : ha1.m_children = childrenOf st a := by
    have h1 : childrenOf ((detach st (some a)).2) a = childrenOf st a := by
      rw [childrenOf_detach, hpa]
      show (if a = r then (childrenOf st a).filter (fun y => y != a)
        else childrenOf st a) = childrenOf st a
      rw [if_neg hne_ra]
    rw [← h1]
    unfold childrenOf
    rw [hha1]
    rfl
  have hbmem : b ∈ ha1.m_children := by
    rw [hch]
    exact wf_parent_children hwf b a hpb
  have hpb1 : parentOf ((detach st (some a)).2) b = some a := by
    rw [parentOf_detach, if_neg hne_ab]
    exact hpb
  have hpG : parentOf
      (updHier (ha1.m_children.foldl (orphanStep a) ((detach st (some a)).2))
        a (fun hh2 => { hh2 with m_children := [] })) b = none := by
    rw [parentOf_updHier_keep _ a b (fun hh2 => { hh2 with m_children := [] })
      (fun h0 => rfl)]
    rw [parentOf_orphanFold a ha1.m_children ((detach st (some a)).2) b]
    rw [if_pos ⟨hbmem, hpb1⟩]
  have hment :
      (updHier (ha1.m_children.foldl (orphanStep a) ((detach st (some a)).2))
        a (fun hh2 => { hh2 with m_children := [] })).m_entities =
      st.m_entities := by
    show (ha1.m_children.foldl (orphanStep a)
      ((detach st (some a)).2)).m_entities = st.m_entities
    rw [m_entities_orphanFold, m_entities_detach]
  rw [hre]
  refine ⟨?_, hpG, ?_, ?_, ?_⟩
  · show decide (a ∈ (updHier (ha1.m_children.foldl (orphanStep a)
      ((detach st (some a)).2)) a
      (fun hh2 => { hh2 with m_children := [] })).m_entities.filter
        (fun x => x != a)) = false
    apply decide_eq_false
    intro k
    have := (List.mem_filter.mp k).2
    simp at this
  · show decide (b ∈ (updHier (ha1.m_children.foldl (orphanStep a)
      ((detach st (some a)).2)) a
      (fun hh2 => { hh2 with m_children := [] })).m_entities.filter
        (fun x => x != a)) = true
    apply decide_eq_true
    rw [hment]
    refine List.mem_filter.mpr ⟨?_, by simpa using hne_ab⟩
    unfold isRegistered at hregb
    simpa using hregb
  · have hsb : (getHierarchy
        (updHier (ha1.m_children.foldl (orphanStep a)
          ((detach st (some a)).2)) a
          (fun hh2 => { hh2 with m_children := [] })) b).isSome = true := by
      rw [getHierarchy_isSome_updHier, getHierarchy_isSome_orphanFold,
        getHierarchy_isSome_detach]
      unfold parentOf at hpb
      cases hg : getHierarchy st b with
      | none => rw [hg] at hpb; exact absurd hpb (by simp)
      | some hcomp => rfl
    obtain ⟨hb2, hgb⟩ : ∃ hh, getHierarchy
        (updHier (ha1.m_children.foldl (orphanStep a)
          ((detach st (some a)).2)) a
          (fun hh2 => { hh2 with m_children := [] })) b = some hh := by
      cases hg : getHierarchy
          (updHier (ha1.m_children.foldl (orphanStep a)
            ((detach st (some a)).2)) a
            (fun hh2 => { hh2 with m_children := [] })) b with
      | none => rw [hg] at hsb; exact absurd hsb (by simp)
      | some v => exact ⟨v, rfl⟩
    show (match getHierarchy
        (updHier (ha1.m_children.foldl (orphanStep a)
          ((detach st (some a)).2)) a
          (fun hh2 => { hh2 with m_children := [] })) b with
      | none => true
      | some h => h.m_parent.isNone) = true
    rw [hgb]
    have hb2p : hb2.m_parent = none := by
      unfold parentOf at hpG
      rw [hgb] at hpG
      exact hpG
    show hb2.m_parent.isNone = true
    rw [hb2p]
    rfl
  · show decide (r ∈ (updHier (ha1.m_children.foldl (orphanStep a)
      ((detach st (some a)).2)) a
      (fun hh2 => { hh2 with m_children := [] })).m_entities.filter
        (fun x => x != a)) = true
    apply decide_eq_true
    rw [hment]
    refine List.mem_filter.mpr ⟨?_, by simpa using hne_rb⟩
    unfold isRegistered at hregr
    simpa using hregr

/-- C6 witness: the chain `stChain` (0→1→2, built by attach calls) with
`removeEntity(1)`. -/
theorem removeEntity_c6_shallow_witness :
    isRegistered (removeEntity stChain (some 1)) 1 = false ∧
      parentOf (removeEntity stChain (some 1)) 2 = none ∧
      isRegistered (removeEntity stChain (some 1)) 2 = true ∧
      isRoot (removeEntity stChain (some 1)) (some 2) = true := by
  have h := removeEntity_c6_shallow stChain 0 1 2 (by decide) (by decide)
    (by decide) (by decide) rfl rfl (by decide) (by decide) (by decide)
  exact ⟨h.1, h.2.1, h.2.2.1, h.2.2.2.1⟩

/-- C7: `addEntity` contract.  Null and already-registered entities are
no-ops (so the call is idempotent); an unregistered entity is appended to
the registry, receiving an initialised default `Transform` (unit scale,
identity matrix) and default `HierarchyComponent` exactly when it lacks
them, so registration never fails and every entity registered through this
path carries both components; the both-components invariant over the
registry is preserved. -/
theorem addEntity_c7_contract {M : Type} [Monoid M] (ops : MatOps M) :
    (∀ st : SceneState M, addEntity ops st none = st) ∧
    (∀ (st : SceneState M) (e : EntityId),
      addEntity ops (addEntity ops st (some e)) (some e) =
        addEntity ops st (some e)) ∧
    (∀ (st : SceneState M) (e : EntityId), isRegistered st e = true →
      addEntity ops st (some e) = st) ∧
    (∀ (st : SceneState M) (e : EntityId),
      isRegistered st e = false → heapHas st e = true →
      isRegistered (addEntity ops st (some e)) e = true ∧
        (addEntity ops st (some e)).m_entities = st.m_entities ++ [e] ∧
        (getTransform (addEntity ops st (some e)) e).isSome = true ∧
        (getHierarchy (addEntity ops st (some e)) e).isSome = true ∧
        ((getTransform st e).isNone = true →
          getTransform (addEntity ops st (some e)) e =
            some (Transform.init (Transform.construct ops))) ∧
        ((getTransform st e).isSome = true →
          getTransform (addEntity ops st (some e)) e = getTransform st e) ∧
        ((getHierarchy st e).isNone = true →
          getHierarchy (addEntity ops st (some e)) e =
            some (HierarchyComponent.init HierarchyComponent.construct)) ∧
        ((getHierarchy st e).isSome = true →
          getHierarchy (addEntity ops st (some e)) e = getHierarchy st e)) ∧
    (∀ (st : SceneState M) (e : EntityId), heapHas st e = true →
      (∀ x, isRegistered st x = true →
        (getTransform st x).isSome = true ∧
          (getHierarchy st x).isSome = true) →
      ∀ x, isRegistered (addEntity ops st (some e)) x = true →
        (getTransform (addEntity ops st (some e)) x).isSome = true ∧
          (getHierarchy (addEntity ops st (some e)) x).isSome = true) := by
  refine ⟨fun st => rfl, fun st e => addEntity_idem ops st e,
    fun st e hr => addEntity_registered ops st e hr,
    fun st e hr hhas => ?_, fun st e hhas hinv x hx => ?_⟩
  · have hrne : ¬ isRegistered st e = true := by rw [hr]; simp
    refine ⟨isRegistered_addEntity_self ops st e, ?_,
      getTransform_addEntity_self_isSome ops st e hr hhas,
      getHierarchy_addEntity_self_isSome ops st e hr hhas, ?_, ?_, ?_, ?_⟩
    · rw [m_entities_addEntity, if_neg hrne]
    · intro hnone
      rw [getTransform_addEntity, if_neg hrne, if_pos ⟨rfl, hhas, hnone⟩]
    · intro hsome
      rw [getTransform_addEntity, if_neg hrne]
      rw [if_neg (fun k => by
        rw [Option.isNone_iff_eq_none.mp k.2.2] at hsome
        exact absurd hsome (by simp))]
    · intro hnone
      rw [getHierarchy_addEntity, if_neg hrne, if_pos ⟨rfl, hhas, hnone⟩]
      rfl
    · intro hsome
      rw [getHierarchy_addEntity, if_neg hrne]
      rw [if_neg (fun k => by
        rw [Option.isNone_iff_eq_none.mp k.2.2] at hsome
        exact absurd hsome (by simp))]
  · by_cases hr : isRegistered st e = true
    · rw [addEntity_registered ops st e hr] at hx ⊢
      exact hinv x hx
    · have hr2 : isRegistered st e = false := by
        cases hc : isRegistered st e
        · rfl
        · exact absurd hc hr
      by_cases hxe : x = e
      · rw [hxe]
        exact ⟨getTransform_addEntity_self_isSome ops st e hr2 hhas,
          getHierarchy_addEntity_self_isSome ops st e hr2 hhas⟩
      · rw [getTransform_addEntity_other ops st e x hxe,
          getHierarchy_addEntity_other ops st e x hxe]
        rw [isRegistered_addEntity_other ops st e x hxe] at hx
        exact hinv x hx

/-- C7 witness: registering the fresh entity 0 of a three-entity world. -/
theorem addEntity_c7_contract_witness :
    isRegistered (addEntity opsNat (freshScene ℕ 3) (some 0)) 0 = true ∧
      (addEntity opsNat (freshScene ℕ 3) (some 0)).m_entities = [0] ∧
      getTransform (addEntity opsNat (freshScene ℕ 3) (some 0)) 0 =
        some (Transform.init (Transform.construct opsNat)) := by
  have h := (addEntity_c7_contract opsNat).2.2.2.1 (freshScene ℕ 3) 0
    (by decide) (by decide)
  exact ⟨h.1, by rw [h.2.1]; rfl, h.2.2.2.2.1 (by decide)⟩

theorem localSRT_flat {M : Type} [Monoid M] (ops : MatOps M)
    (t : Transform M) :
    localSRT ops t =
      ops.scaling t.scale * ops.rotationX t.rotation.1 *
        ops.rotationY t.rotation.2.1 * ops.rotationZ t.rotation.2.2 *
        ops.translation t.position := by
  unfold localSRT
  simp only [mul_assoc]

/-- C8: `Transform::matrix` is the local composition Scale × RotateX ×
RotateY × RotateZ × Translate of the fields as of the last `update` call:
`update` recomputes it unconditionally from the current fields, the setters
leave it untouched, `init` resets it to the identity, and after a full
`SceneGraph::update` every registered entity's stored matrix is still that
local composition of its own (unchanged) fields — Pass 2 never writes the
accumulated world matrix back into any entity field. -/
theorem transform_c8_local_matrix {M : Type} [Monoid M] (ops : MatOps M) :
    (∀ (dt : ℚ) (t : Transform M),
      (Transform.update ops dt t).matrix =
        ops.scaling t.scale * ops.rotationX t.rotation.1 *
          ops.rotationY t.rotation.2.1 * ops.rotationZ t.rotation.2.2 *
          ops.translation t.position) ∧
    (∀ (t : Transform M) (v : Vec3),
      (Transform.setPosition v t).matrix = t.matrix) ∧
    (∀ (t : Transform M) (v : Vec3),
      (Transform.setRotation v t).matrix = t.matrix) ∧
    (∀ (t : Transform M) (v : Vec3),
      (Transform.setScale v t).matrix = t.matrix) ∧
    (∀ (t : Transform M) (v1 v2 v3 : Vec3),
      (Transform.setTransform v1 v2 v3 t).matrix = t.matrix) ∧
    (∀ t : Transform M, (Transform.init t).matrix = 1) ∧
    (∀ (dt : ℚ) (st : SceneState M) (fuel : Nat) (e : EntityId)
        (tr : Transform M),
      e ∈ st.m_entities →
      getTransform (sceneUpdate ops dt st fuel).1 e = some tr →
      tr.matrix =
        ops.scaling tr.scale * ops.rotationX tr.rotation.1 *
          ops.rotationY tr.rotation.2.1 * ops.rotationZ tr.rotation.2.2 *
          ops.translation tr.position) := by
  refine ⟨fun dt t => ?_, fun t v => rfl, fun t v => rfl, fun t v => rfl,
    fun t v1 v2 v3 => rfl, fun t => rfl, fun dt st fuel e tr hmem hget => ?_⟩
  · rw [Transform.update_matrix]
    exact localSRT_flat ops t
  · have h1 : getTransform (scenePass1 ops dt st) e = some tr := hget
    rw [getTransform_scenePass1, if_pos hmem] at h1
    cases ht : getTransform st e with
    | none => rw [ht] at h1; exact absurd h1 (by simp)
    | some t0 =>
      rw [ht] at h1
      have htr : Transform.update ops dt t0 = tr := by
        have h2 : some (Transform.update ops dt t0) = some tr := h1
        exact Option.some.injEq .. ▸ h2
      rw [← htr]
      show localSRT ops t0 =
        ops.scaling t0.scale * ops.rotationX t0.rotation.1 *
          ops.rotationY t0.rotation.2.1 * ops.rotationZ t0.rotation.2.2 *
          ops.translation t0.position
      exact localSRT_flat ops t0

/-- C8 witness: the frame update on `stPair` recomputes entity 1's matrix to
the local composition of its fields (2 · (3 · 5 · 7) · 11 under the ℕ
evaluation). -/
theorem transform_c8_local_matrix_witness :
    (1 : EntityId) ∈ stPair.m_entities ∧
      getTransform (sceneUpdate opsNat 1 stPair 1).1 1 =
        some ⟨(0, 0, 0), (0, 0, 0), (1, 1, 1), 2310⟩ ∧
      (⟨(0, 0, 0), (0, 0, 0), (1, 1, 1), 2310⟩ : Transform ℕ).matrix =
        opsNat.scaling (1, 1, 1) * opsNat.rotationX 0 *
          opsNat.rotationY 0 * opsNat.rotationZ 0 *
          opsNat.translation (0, 0, 0) := by
  refine ⟨by decide, by decide, ?_⟩
  exact (transform_c8_local_matrix opsNat).2.2.2.2.2.2 1 stPair 1 1
    ⟨(0, 0, 0), (0, 0, 0), (1, 1, 1), 2310⟩ (by decide) (by decide)

/-- C9 counterexample: a freshly created entity (no components) is a root
(`isRoot` is true), yet both the first and the second `detach` call return
false — not the claimed trivial success — refuting "the second call always
returns true" for arbitrary entities. -/
theorem detach_c9_cex :
    isRoot (freshScene ℕ 1) (some 0) = true ∧
      (detach (freshScene ℕ 1) (some 0)).1 = false ∧
      (detach ((detach (freshScene ℕ 1) (some 0)).2) (some 0)).1 = false := by
  decide

/-- C9 (amended): for every entity that carries a `HierarchyComponent` — in
particular every registered entity — the first `detach` leaves it a root
(null parent), a second `detach` is a no-op returning true, `isRoot` holds
after both calls, and a `detach` on an already-root entity returns true
without changing the state.  An entity without a `HierarchyComponent` gets
false instead (see the counterexample). -/
theorem detach_c9_idempotent {M : Type} (st : SceneState M) (e : EntityId)
    (hc : HierarchyComponent) (hh : getHierarchy st e = some hc) :
    (detach ((detach st (some e)).2) (some e)).1 = true ∧
      (detach ((detach st (some e)).2) (some e)).2 = (detach st (some e)).2 ∧
      parentOf ((detach st (some e)).2) e = none ∧
      isRoot ((detach st (some e)).2) (some e) = true ∧
      isRoot ((detach ((detach st (some e)).2) (some e)).2) (some e) = true ∧
      (hc.m_parent = none → detach st (some e) = (true, st)) := by
  have hp1 : parentOf ((detach st (some e)).2) e = none := by
    rw [parentOf_detach, if_pos rfl]
  have hs1 : (getHierarchy ((detach st (some e)).2) e).isSome = true := by
    rw [getHierarchy_isSome_detach, hh]
    rfl
  obtain ⟨hc1, hh1⟩ :
      ∃ v, getHierarchy ((detach st (some e)).2) e = some v := by
    cases hg : getHierarchy ((detach st (some e)).2) e with
    | none => rw [hg] at hs1; exact absurd hs1 (by simp)
    | some v => exact ⟨v, rfl⟩
  have hc1p : hc1.m_parent = none := by
    unfold parentOf at hp1
    rw [hh1] at hp1
    exact hp1
  have hd2 : detach ((detach st (some e)).2) (some e) =
      (true, (detach st (some e)).2) :=
    detach_root _ e hc1 hh1 hc1p
  refine ⟨by rw [hd2], by rw [hd2], hp1, ?_, ?_, ?_⟩
  · show (match getHierarchy ((detach st (some e)).2) e with
      | none => true
      | some h => h.m_parent.isNone) = true
    rw [hh1]
    show hc1.m_parent.isNone = true
    rw [hc1p]
    rfl
  · rw [hd2]
    show (match getHierarchy ((detach st (some e)).2) e with
      | none => true
      | some h => h.m_parent.isNone) = true
    rw [hh1]
    show hc1.m_parent.isNone = true
    rw [hc1p]
    rfl
  · intro hpn
    exact detach_root st e hc hh hpn

/-- C9 witness: double detach of the attached entity 1 in `stPair`. -/
theorem detach_c9_idempotent_witness :
    getHierarchy stPair 1 = some ⟨some 0, []⟩ ∧
      (detach ((detach stPair (some 1)).2) (some 1)).1 = true ∧
      isRoot ((detach stPair (some 1)).2) (some 1) = true := by
  have h := detach_c9_idempotent stPair 1 ⟨some 0, []⟩ rfl
  exact ⟨rfl, h.1, h.2.2.2.1⟩

/-- C10: `attach` registers child then parent (auto-attaching missing
default components) before the ancestry check runs, and a rejection by that
check returns exactly the registered state — the registrations are not
rolled back, so a failing attach can leave the registry and component lists
changed. -/
theorem attach_c10_registers_before_cycle_check {M : Type} [Monoid M]
    (ops : MatOps M) (st : SceneState M) (c p : EntityId) (n : Nat)
    (hq : parentOf st p = some c) (hcp : ¬ c = p) :
    attach ops st (some c) (some p) (n + 1) =
        some (false, regBoth ops st c p) ∧
      isRegistered (regBoth ops st c p) c = true ∧
      isRegistered (regBoth ops st c p) p = true ∧
      (isRegistered st c = false → heapHas st c = true →
        (getTransform (regBoth ops st c p) c).isSome = true ∧
          (getHierarchy (regBoth ops st c p) c).isSome = true) ∧
      (isRegistered st p = false → heapHas st p = true →
        (getTransform (regBoth ops st c p) p).isSome = true ∧
          (getHierarchy (regBoth ops st c p) p).isSome = true) := by
  have hpc : ¬ p = c := fun k => hcp k.symm
  refine ⟨attach_guard_true ops st c p hcp hq n,
    isRegistered_addEntity_mono ops _ (some p) c
      (isRegistered_addEntity_self ops st c),
    isRegistered_addEntity_self ops _ p, ?_, ?_⟩
  · intro hrc hhc
    unfold regBoth
    rw [getTransform_addEntity_other ops _ p c hcp,
      getHierarchy_addEntity_other ops _ p c hcp]
    exact ⟨getTransform_addEntity_self_isSome ops st c hrc hhc,
      getHierarchy_addEntity_self_isSome ops st c hrc hhc⟩
  · intro hrp hhp
    unfold regBoth
    have hrp1 : isRegistered (addEntity ops st (some c)) p = false := by
      rw [isRegistered_addEntity_other ops st c p hpc]
      exact hrp
    have hhp1 : heapHas (addEntity ops st (some c)) p = true := by
      rw [heapHas_addEntity]
      exact hhp
    exact ⟨getTransform_addEntity_self_isSome ops _ p hrp1 hhp1,
      getHierarchy_addEntity_self_isSome ops _ p hrp1 hhp1⟩

/-- C10 witness: in `stWild` both entities are unregistered and 1's parent
back-reference already points at 0, so `attach(0, 1)` fails the ancestry
check yet leaves both entities registered — the registry visibly changes
on a failing call. -/
theorem attach_c10_registers_before_cycle_check_witness :
    parentOf stWild 1 = some 0 ∧
      attach opsNat stWild (some 0) (some 1) 1 =
        some (false, regBoth opsNat stWild 0 1) ∧
      isRegistered (regBoth opsNat stWild 0 1) 0 = true ∧
      stWild.m_entities = [] ∧
      (regBoth opsNat stWild 0 1).m_entities = [0, 1] := by
  have h := attach_c10_registers_before_cycle_check opsNat stWild 0 1 0 rfl
    (by decide)
  exact ⟨rfl, h.1, h.2.1, rfl, by decide⟩

end Engine